import Mathlib

/-!
# Verification of the Duckov Mod Manager synchronization & translation pipeline

Shallow embedding of the sync/translation core of the repository:

* `src/services/ModService.ts` — sync orchestrator (`syncModsFromWorkshop`,
  `shouldTranslateMod`, `translateMod`, `refreshModTranslations`);
* `src/services/TranslationService.ts` — rate-limited translation client
  (`translate`, `translateBatch`, `waitForRateLimit`, `retryWithBackoff`,
  `performTranslation`, `saveToDatabaseCache`, `clearCache`);
* `dist/database/Database.js` — persistent store
  (`getTranslation`, `saveTranslation`, `cleanExpiredTranslations`).

All timestamps are integers in milliseconds since the epoch (JavaScript
`Date.getTime()` / `Date.now()`).  JavaScript calendar-day arithmetic
(`setDate(getDate() ± n)`) is modelled as adding/subtracting `n * msPerDay`.
-/

namespace Duckov

/-- Milliseconds in one day: `Date.setDate` day arithmetic. -/
def msPerDay : Int := 86400000

/-- `ModInfo` from `src/types/index.ts`; `Date` fields are ms timestamps.
Fields not consulted by the verified pipeline (creator, rating, tags, …)
are omitted: no verified function reads them. -/
structure ModInfo where
  id : String
  title : String
  description : String
  originalTitle : Option String := none
  originalDescription : Option String := none
  translatedTitle : Option String := none
  translatedDescription : Option String := none
  lastTranslated : Option Int := none
  timeUpdated : Int := 0
  language : Option String := none
deriving Repr, DecidableEq

/-- `ModService.shouldTranslateMod` (ModService.ts lines 146-173).
`now` is the current clock, `ttlDays` the parsed
`TRANSLATION_CACHE_TTL_DAYS` (default 7).  The code computes
`expiryDate = new Date(); expiryDate.setDate(getDate() - cacheExpiryDays)`,
i.e. `now - ttlDays` days, and tests `existingMod.lastTranslated < expiryDate`
with a strict comparison. -/
def shouldTranslateMod (mod : ModInfo) (existingMod : Option ModInfo)
    (now ttlDays : Int) : Bool :=
  match existingMod with
  | none => true
  | some existing =>
    match existing.lastTranslated with
    | none => true
    | some lastTranslated =>
      if mod.timeUpdated > lastTranslated then true
      else
        let expiryDate := now - ttlDays * msPerDay
        if lastTranslated < expiryDate then true
        else false

/-- Modelled from the spec (claim C1): the staleness formula of spec §4.4
with the §8 reading that the TTL boundary
(`lastTranslatedAt` exactly equal to `now - ttlDays`) counts as expired,
i.e. the last disjunct is inclusive (`≤`). -/
def specNeedsTranslationInclusive (mod : ModInfo) (existingMod : Option ModInfo)
    (now ttlDays : Int) : Bool :=
  match existingMod with
  | none => true
  | some existing =>
    match existing.lastTranslated with
    | none => true
    | some lastTranslated =>
      mod.timeUpdated > lastTranslated ∨ lastTranslated ≤ now - ttlDays * msPerDay

/-- A concrete mod whose `lastTranslated` sits exactly on the TTL boundary. -/
def boundaryMod : ModInfo :=
  { id := "100", title := "t", description := "d",
    lastTranslated := some 0, timeUpdated := 0, language := some "zh" }

/-- C1 counterexample: at `now = 7 days`, `ttlDays = 7`, a record whose
`lastTranslated` equals exactly `now - ttlDays` (and whose remote update
timestamp is not newer) is NOT re-translated by the code, while the claim
(boundary inclusive, treated as expired) says it must be. -/
theorem shouldTranslateMod_boundary_counterexample :
    shouldTranslateMod boundaryMod (some boundaryMod) (7 * msPerDay) 7 = false ∧
    specNeedsTranslationInclusive boundaryMod (some boundaryMod) (7 * msPerDay) 7 = true := by
  constructor <;> rfl

/-- C1 (amended): `shouldTranslateMod` returns `true` exactly when there is
no existing record, or the record was never translated, or the item updated
strictly after the last translation, or the last translation is strictly
older than `now - ttlDays`; the boundary case `lastTranslated = now - ttlDays`
is treated as still valid (no re-translation). -/
theorem shouldTranslateMod_iff (mod : ModInfo) (existingMod : Option ModInfo)
    (now ttlDays : Int) :
    shouldTranslateMod mod existingMod now ttlDays = true ↔
      existingMod = none ∨
      ∃ e, existingMod = some e ∧
        (e.lastTranslated = none ∨
         ∃ lt, e.lastTranslated = some lt ∧
           (mod.timeUpdated > lt ∨ lt < now - ttlDays * msPerDay)) := by
  cases existingMod with
  | none => simp [shouldTranslateMod]
  | some e =>
    cases h : e.lastTranslated with
    | none => simp [shouldTranslateMod, h]
    | some lt =>
      simp only [shouldTranslateMod, h]
      split_ifs with h1 h2 <;> simp_all

/-! ## Retry with exponential backoff (TranslationService.ts lines 375-403)

`retryWithBackoff` wraps one backend attempt; an attempt either succeeds or
raises an error.  A raised error is an axios error with an optional HTTP
status, or a plain `Error` (not an axios error, no `response`); the loop
retries only when `axios.isAxiosError(error) &&
error.response?.status === 429`, sleeping `baseDelay * 2 ^ attempt` ms
before each retry, for at most `maxRetries` (default 3) retries.

The operations the service actually passes to this loop
(`performTranslation` lines 422-471, `translateBatch` lines 604-658) wrap
the axios call in their own try/catch, whose catch rethrows EVERY failure
— axios errors of any status (403, 456, 429, …) and non-axios errors
alike — as a plain `new Error(message)`.  That composition is modelled by
`deepLOp` below. -/

/-- Error thrown by a backend attempt: axios flag plus optional HTTP status
(`error.response?.status`). -/
structure ApiError where
  isAxiosError : Bool
  status : Option Nat
deriving Repr, DecidableEq

/-- `axios.isAxiosError(error) && error.response?.status === 429`. -/
def isRateLimitError (e : ApiError) : Bool :=
  e.isAxiosError && e.status == some 429

/-- One loop iteration of `retryWithBackoff`, indexed by the current
`attempt`; `op n` is the outcome of the `n`-th backend attempt
(0-based).  Returns the final outcome, the number of attempts issued, and
the list of backoff delays slept (in order).  `fuel` only bounds the
recursion; the loop itself stops at `attempt = maxRetries`, so fuel
`maxRetries + 1 - attempt` is never exhausted. -/
def retryGo {α : Type} (op : Nat → Except ApiError α) (maxRetries baseDelay : Nat) :
    Nat → Nat → Except ApiError α × Nat × List Nat
  | _, 0 => (.error ⟨false, none⟩, 0, [])
  | attempt, fuel + 1 =>
    match op attempt with
    | .ok v => (.ok v, 1, [])
    | .error e =>
      if ¬isRateLimitError e ∨ attempt = maxRetries then
        (.error e, 1, [])
      else
        let delay := baseDelay * 2 ^ attempt
        let rest := retryGo op maxRetries baseDelay (attempt + 1) fuel
        (rest.1, rest.2.1 + 1, delay :: rest.2.2)

/-- `TranslationService.retryWithBackoff(operation, maxRetries = 3,
baseDelay = 1000)`. -/
def retryWithBackoff {α : Type} (op : Nat → Except ApiError α)
    (maxRetries : Nat := 3) (baseDelay : Nat := 1000) :
    Except ApiError α × Nat × List Nat :=
  retryGo op maxRetries baseDelay 0 (maxRetries + 1)

/-- The canonical throttling error (HTTP 429 from axios). -/
def throttleError : ApiError := ⟨true, some 429⟩

/-- The operation `performTranslation` (lines 422-471) and `translateBatch`
(lines 604-658) hand to `retryWithBackoff`: the axios call is wrapped in a
catch that rethrows every failure — the axios 429 included — as a plain
`new Error(message)`: a non-axios error with no `response.status`. -/
def deepLOp {α : Type} (backend : Nat → Except ApiError α)
    (attempt : Nat) : Except ApiError α :=
  match backend attempt with
  | .ok v => .ok v
  | .error _ => .error ⟨false, none⟩

/-- A backend that throttles its first two attempts and succeeds on the
third (the scenario of spec §8). -/
def throttleTwiceOp : Nat → Except ApiError String :=
  fun n => if n < 2 then .error throttleError else .ok "ok"

/-- C3: at the spec §8 input — a backend answering HTTP 429 on the first
two attempts with success available on the third — the client as composed
issues exactly ONE remote call and surfaces a plain error immediately,
with no backoff sleep: the operation's own catch rewraps the axios 429 as
a non-axios `Error`, which the retry loop's `isAxiosError(error) &&
error.response?.status === 429` test never matches (first conjunct).  Fed
the raw axios errors it was written for, `retryWithBackoff` itself would
behave exactly as the claim states — 3 calls, delays 1 s then 2 s, then
success (second conjunct) — so the claimed policy is the code's own
documented intent and the rewrapping a slip that makes the retry path
unreachable. -/
theorem retryWithBackoff_throttle_code_bug :
    retryWithBackoff (deepLOp throttleTwiceOp) =
      (.error ⟨false, none⟩, 1, []) ∧
    retryWithBackoff throttleTwiceOp = (.ok "ok", 3, [1000, 2000]) :=
  ⟨rfl, rfl⟩

/-! ## Rate limiter (TranslationService.ts lines 253-259 and 329-373)

`waitForRateLimit` is modelled as a pure transition on the client's counter
state, driven by a fake clock: `now` is the value of `Date.now()` when the
call enters, and every `setTimeout(resolve, w)` advances the clock by
exactly `w` ms.  The function returns the updated state together with the
time at which the remote call fires (the code stores that time in
`this.lastRequestTime = Date.now()` right before issuing the call).
Timestamps are nonnegative in any real execution (`Date.now()`), where
`Int.ediv`/`Int.emod` coincide with JavaScript `Math.floor(x/1000)` and
`x % 1000`. -/

/-- `MIN_REQUEST_INTERVAL = 1000` ms. -/
def MIN_REQUEST_INTERVAL : Int := 1000

/-- `MAX_REQUESTS_PER_MINUTE = 50`. -/
def MAX_REQUESTS_PER_MINUTE : Nat := 50

/-- `MAX_REQUESTS_PER_SECOND = 45`. -/
def MAX_REQUESTS_PER_SECOND : Nat := 45

/-- The rate limiter's mutable counters (TranslationService fields,
initialised to 0 at construction). -/
structure RLState where
  lastRequestTime : Int := 0
  requestCountPerMinute : Nat := 0
  requestCountPerSecond : Nat := 0
  lastSecondTimestamp : Int := 0
deriving Repr, DecidableEq

/-- Counter state at process start. -/
def initRLState : RLState := {}

/-- `TranslationService.waitForRateLimit` (lines 329-373), fake clock. -/
def waitForRateLimit (st : RLState) (now : Int) : RLState × Int :=
  let timeSinceLastRequest := now - st.lastRequestTime
  let currentSecond := now / 1000
  -- Reset per-second counter when we enter a new second
  let st := if currentSecond ≠ st.lastSecondTimestamp then
      { st with lastSecondTimestamp := currentSecond, requestCountPerSecond := 0 }
    else st
  -- Reset per-minute counter every minute
  let st := if timeSinceLastRequest > 60000 then
      { st with requestCountPerMinute := 0 }
    else st
  -- Check per-second limit: wait until the next second boundary
  let p := if st.requestCountPerSecond ≥ MAX_REQUESTS_PER_SECOND then
      let waitTime := 1000 - now % 1000
      let t := now + waitTime
      ({ st with lastSecondTimestamp := t / 1000, requestCountPerSecond := 0 }, t)
    else (st, now)
  let st := p.1
  let t1 := p.2
  -- Check per-minute limit
  let q := if st.requestCountPerMinute ≥ MAX_REQUESTS_PER_MINUTE then
      let waitTime := 60000 - timeSinceLastRequest
      if waitTime > 0 then ({ st with requestCountPerMinute := 0 }, t1 + waitTime)
      else (st, t1)
    else (st, t1)
  let st := q.1
  let t2 := q.2
  -- Ensure minimum interval between requests
  let t3 := if timeSinceLastRequest < MIN_REQUEST_INTERVAL then
      t2 + (MIN_REQUEST_INTERVAL - timeSinceLastRequest)
    else t2
  ({ st with
      lastRequestTime := t3
      requestCountPerMinute := st.requestCountPerMinute + 1
      requestCountPerSecond := st.requestCountPerSecond + 1 }, t3)

/-- Sequential execution of the client (spec §5: causally sequential, one
in-flight request): the i-th call enters `waitForRateLimit` `d_i ≥ 0` ms
after the previous remote call fired.  `hist` accumulates fire times, most
recent first; the result is the full fire-time history. -/
def runCalls (st : RLState) (hist : List Int) : List Int → List Int
  | [] => hist
  | d :: ds =>
    let p := waitForRateLimit st (st.lastRequestTime + d)
    runCalls p.1 (p.2 :: hist) ds

/-- Invariant tying the limiter's counters to the fire-time history
(most recent first): the last request time is the most recent fire; fires
are spaced by ≥ 1000 ms; any 50-apart pair is ≥ 60 s apart; and the
per-minute counter `c` marks a burst boundary: the call `c` positions back
precedes the call `c-1` positions back by ≥ 60 s. -/
structure RLInv (hist : List Int) (st : RLState) : Prop where
  head_eq : st.lastRequestTime = hist.headD 0
  chain : hist.Pairwise (fun a b => b + 1000 ≤ a)
  window : ∀ i, i + 50 < hist.length →
    hist.getD (i + 50) 0 + 60000 ≤ hist.getD i 0
  burst : 1 ≤ st.requestCountPerMinute → st.requestCountPerMinute < hist.length →
    hist.getD st.requestCountPerMinute 0 + 60000 ≤
      hist.getD (st.requestCountPerMinute - 1) 0
  pos : hist ≠ [] → 1 ≤ st.requestCountPerMinute

/-- Case analysis of one `waitForRateLimit` transition: the fire time is
recorded in `lastRequestTime`, is ≥ 1000 ms after the previous fire and
≥ the entry time; the per-minute counter either restarts at 1 after a
≥ 60 s gap, or increments below the ceiling, or increments with the new
fire ≥ 60 s after the previous one. -/
theorem waitForRateLimit_cases (st : RLState) (now : Int)
    (h : st.lastRequestTime ≤ now) (st2 : RLState) (t : Int)
    (hr : waitForRateLimit st now = (st2, t)) :
    st2.lastRequestTime = t ∧ st.lastRequestTime + 1000 ≤ t ∧ now ≤ t ∧
    ((st2.requestCountPerMinute = 1 ∧ st.lastRequestTime + 60000 ≤ t) ∨
     (st2.requestCountPerMinute = st.requestCountPerMinute + 1 ∧
       st.requestCountPerMinute < MAX_REQUESTS_PER_MINUTE) ∨
     (st2.requestCountPerMinute = st.requestCountPerMinute + 1 ∧
       st.lastRequestTime + 60000 ≤ t)) := by
  have hm1 : 0 ≤ now % 1000 := Int.emod_nonneg now (by norm_num)
  have hm2 : now % 1000 < 1000 := Int.emod_lt_of_pos now (by norm_num)
  simp only [waitForRateLimit, MIN_REQUEST_INTERVAL, MAX_REQUESTS_PER_MINUTE,
    MAX_REQUESTS_PER_SECOND] at hr ⊢
  split_ifs at hr <;>
    (injection hr with h1 h2; subst h1; subst h2) <;>
    (try simp only [] at *) <;>
    refine ⟨by trivial, by omega, by omega, ?_⟩ <;>
    first
      | (left; exact ⟨by trivial, by omega⟩)
      | (right; left; exact ⟨by trivial, by omega⟩)
      | (right; right; exact ⟨by trivial, by omega⟩)

/-- In a ≥ 1000 ms-spaced most-recent-first history, every element is at
most the most recent one. -/
theorem chain_mem_le_head {hist : List Int}
    (hc : hist.Pairwise (fun a b => b + 1000 ≤ a)) :
    ∀ b ∈ hist, b ≤ hist.headD 0 := by
  cases hist with
  | nil => simp
  | cons x xs =>
    intro b hb
    rcases List.mem_cons.mp hb with rfl | hb
    · simp
    · have := (List.pairwise_cons.mp hc).1 b hb
      simp only [List.headD_cons]
      omega

/-- A chain-spaced history is weakly decreasing in the index. -/
theorem chain_getD_le {hist : List Int}
    (hc : hist.Pairwise (fun a b => b + 1000 ≤ a))
    {i j : Nat} (hij : i ≤ j) (hj : j < hist.length) :
    hist.getD j 0 ≤ hist.getD i 0 := by
  rw [List.getD_eq_getElem hist 0 hj, List.getD_eq_getElem hist 0 (by omega)]
  rcases Nat.eq_or_lt_of_le hij with rfl | hlt
  · exact le_rfl
  · have := List.pairwise_iff_getElem.mp hc i j (by omega) hj hlt
    omega

/-- For a nonempty history the default head is the first element. -/
theorem headD_eq_getD_zero {hist : List Int} (h : 0 < hist.length) :
    hist.headD 0 = hist.getD 0 0 := by
  cases hist with
  | nil => simp at h
  | cons x xs => simp

/-- The invariant holds at process start with an empty history. -/
theorem RLInv_init : RLInv [] initRLState := by
  refine ⟨rfl, List.Pairwise.nil, ?_, ?_, ?_⟩
  · intro i h; simp at h
  · intro h1 h2; simp at h2
  · intro h; simp at h

/-- One rate-limited call preserves the invariant. -/
theorem RLInv_step {hist : List Int} {st : RLState} (inv : RLInv hist st)
    {d : Int} (hd : 0 ≤ d) :
    RLInv ((waitForRateLimit st (st.lastRequestTime + d)).2 :: hist)
      (waitForRateLimit st (st.lastRequestTime + d)).1 := by
  obtain ⟨st2, t, hr⟩ : ∃ st2 t,
      waitForRateLimit st (st.lastRequestTime + d) = (st2, t) := ⟨_, _, rfl⟩
  rw [hr]
  show RLInv (t :: hist) st2
  obtain ⟨hlrt, hgap, hnow, hdisj⟩ :=
    waitForRateLimit_cases st (st.lastRequestTime + d) (by omega) st2 t hr
  simp only [MAX_REQUESTS_PER_MINUTE] at hdisj
  have hhd := inv.head_eq
  have hmem : ∀ b ∈ hist, b + 1000 ≤ t := by
    intro b hb
    have := chain_mem_le_head inv.chain b hb
    omega
  refine ⟨?_, ?_, ?_, ?_, ?_⟩
  · simpa using hlrt
  · exact List.pairwise_cons.mpr ⟨hmem, inv.chain⟩
  · intro i h
    match i with
    | 0 =>
      have h49 : 49 < hist.length := by simp at h; omega
      show (t :: hist).getD (49 + 1) 0 + 60000 ≤ (t :: hist).getD 0 0
      rw [List.getD_cons_succ, List.getD_cons_zero]
      have hget0 : hist.headD 0 = hist.getD 0 0 := headD_eq_getD_zero (by omega)
      rcases hdisj with ⟨_, hge⟩ | ⟨_, hlt50⟩ | ⟨_, hge⟩
      · have := chain_getD_le inv.chain (Nat.zero_le 49) h49
        omega
      · have hpos : 1 ≤ st.requestCountPerMinute :=
          inv.pos (by intro hnil; rw [hnil] at h49; simp at h49)
        have hcl : st.requestCountPerMinute < hist.length := by omega
        have hb := inv.burst hpos hcl
        have ha : hist.getD 49 0 ≤ hist.getD st.requestCountPerMinute 0 :=
          chain_getD_le inv.chain (by omega) h49
        have hc : hist.getD (st.requestCountPerMinute - 1) 0 ≤ hist.getD 0 0 :=
          chain_getD_le inv.chain (Nat.zero_le _) (by omega)
        omega
      · have := chain_getD_le inv.chain (Nat.zero_le 49) h49
        omega
    | (k + 1 : Nat) =>
      have hlen : k + 50 < hist.length := by simp at h; omega
      have hw := inv.window k hlen
      show (t :: hist).getD ((k + 50) + 1) 0 + 60000 ≤ (t :: hist).getD (k + 1) 0
      rw [List.getD_cons_succ, List.getD_cons_succ]
      exact hw
  · intro h1 h2
    rcases hdisj with ⟨hc1, hge⟩ | ⟨hc2, hlt50⟩ | ⟨hc3, hge⟩
    · rw [hc1] at h2 ⊢
      have h0 : 0 < hist.length := by simp at h2; omega
      show (t :: hist).getD (0 + 1) 0 + 60000 ≤ (t :: hist).getD 0 0
      rw [List.getD_cons_succ, List.getD_cons_zero]
      rw [headD_eq_getD_zero h0] at hhd
      omega
    · rw [hc2] at h2 ⊢
      have hpos : 1 ≤ st.requestCountPerMinute := by
        apply inv.pos
        intro hnil
        rw [hnil] at h2
        simp at h2
      have hcl : st.requestCountPerMinute < hist.length := by simp at h2; omega
      have hb := inv.burst hpos hcl
      obtain ⟨c0, hceq⟩ : ∃ c0, st.requestCountPerMinute = c0 + 1 :=
        ⟨st.requestCountPerMinute - 1, by omega⟩
      rw [hceq] at hb ⊢
      simp only [Nat.add_sub_cancel] at hb
      show (t :: hist).getD ((c0 + 1) + 1) 0 + 60000 ≤ (t :: hist).getD (c0 + 1) 0
      rw [List.getD_cons_succ, List.getD_cons_succ]
      exact hb
    · rw [hc3] at h2 ⊢
      have hpos : 1 ≤ st.requestCountPerMinute := by
        apply inv.pos
        intro hnil
        rw [hnil] at h2
        simp at h2
      have hcl : st.requestCountPerMinute < hist.length := by simp at h2; omega
      have hb := inv.burst hpos hcl
      obtain ⟨c0, hceq⟩ : ∃ c0, st.requestCountPerMinute = c0 + 1 :=
        ⟨st.requestCountPerMinute - 1, by omega⟩
      rw [hceq] at hb ⊢
      simp only [Nat.add_sub_cancel] at hb
      show (t :: hist).getD ((c0 + 1) + 1) 0 + 60000 ≤ (t :: hist).getD (c0 + 1) 0
      rw [List.getD_cons_succ, List.getD_cons_succ]
      exact hb
  · intro _
    rcases hdisj with ⟨hc1, _⟩ | ⟨hc2, _⟩ | ⟨hc3, _⟩ <;> omega

/-- A sequential run preserves the invariant and fires one remote call per
request. -/
theorem runCalls_inv (ds : List Int) :
    ∀ (st : RLState) (hist : List Int), (∀ x ∈ ds, 0 ≤ x) → RLInv hist st →
    (runCalls st hist ds).length = ds.length + hist.length ∧
    ∃ st2, RLInv (runCalls st hist ds) st2 := by
  induction ds with
  | nil =>
    intro st hist _ inv
    exact ⟨by simp [runCalls], st, inv⟩
  | cons d ds ih =>
    intro st hist hd inv
    have hd0 : 0 ≤ d := hd d (List.mem_cons_self _ _)
    have hds : ∀ x ∈ ds, 0 ≤ x := fun x hx => hd x (List.mem_cons_of_mem _ hx)
    have step := RLInv_step inv hd0
    have hrec := ih _ _ hds step
    simp only [runCalls]
    refine ⟨?_, hrec.2⟩
    rw [hrec.1]
    simp
    omega

/-- Counting lemma: in a weakly decreasing list in which entries `k` apart
differ by at least `w`, any half-open window of width `w` contains at most
`k` entries. -/
theorem chain_window_count {l : List Int} (k : Nat) (w : Int)
    (hchain : l.Pairwise (fun a b => b + 1000 ≤ a))
    (hk : ∀ i, i + k < l.length → l.getD (i + k) 0 + w ≤ l.getD i 0)
    (a : Int) :
    (l.filter (fun t => decide (a ≤ t) && decide (t < a + w))).length ≤ k := by
  induction l with
  | nil => simp
  | cons x xs ih =>
    by_cases hx : a ≤ x ∧ x < a + w
    · by_cases hlen : (x :: xs).length ≤ k
      · exact le_trans (List.length_filter_le _ _) hlen
      · push_neg at hlen
        have hdrop : ((x :: xs).drop k).filter
            (fun t => decide (a ≤ t) && decide (t < a + w)) = [] := by
          rw [List.filter_eq_nil_iff]
          intro y hy
          obtain ⟨⟨j, hj⟩, hget⟩ := List.mem_iff_get.mp hy
          have hjlen : k + j < (x :: xs).length := by
            have := List.length_drop k (x :: xs)
            omega
          have hyval : y = (x :: xs).getD (k + j) 0 := by
            rw [← hget, List.get_eq_getElem, List.getElem_drop,
              List.getD_eq_getElem _ 0 hjlen]
          have hmono : (x :: xs).getD (k + j) 0 ≤ (x :: xs).getD k 0 :=
            chain_getD_le hchain (Nat.le_add_right k j) hjlen
          have hwk := hk 0 (by omega)
          have hx0 : (x :: xs).getD 0 0 = x := List.getD_cons_zero
          simp only [Bool.and_eq_true, decide_eq_true_eq, not_and, not_lt]
          intro hay
          simp only [Nat.zero_add] at hwk
          omega
        have hsplit : (x :: xs).filter (fun t => decide (a ≤ t) && decide (t < a + w)) =
            ((x :: xs).take k).filter (fun t => decide (a ≤ t) && decide (t < a + w)) ++
            ((x :: xs).drop k).filter (fun t => decide (a ≤ t) && decide (t < a + w)) := by
          rw [← List.filter_append, List.take_append_drop]
        rw [hsplit, hdrop, List.length_append, List.length_nil]
        have := List.length_filter_le (fun t => decide (a ≤ t) && decide (t < a + w))
          ((x :: xs).take k)
        have := List.length_take k (x :: xs)
        omega
    · have hxf : ¬((fun t => decide (a ≤ t) && decide (t < a + w)) x = true) := by
        simp only [Bool.and_eq_true, decide_eq_true_eq, not_and, not_lt]
        intro h1
        by_contra h2
        push_neg at h2
        exact hx ⟨h1, h2⟩
      rw [@List.filter_cons_of_neg Int (fun t => decide (a ≤ t) && decide (t < a + w)) x xs hxf]
      apply ih (List.Pairwise.of_cons hchain)
      intro i hi
      have hstep := hk (i + 1) (by simp; omega)
      have e1 : (x :: xs).getD (i + 1 + k) 0 = xs.getD (i + k) 0 := by
        rw [show i + 1 + k = (i + k) + 1 from by omega, List.getD_cons_succ]
      rw [e1, List.getD_cons_succ] at hstep
      exact hstep

/-- The chain property gives the minimum spacing between consecutive fires. -/
theorem chain_adjacent {l : List Int}
    (hchain : l.Pairwise (fun a b => b + 1000 ≤ a)) :
    ∀ i, i + 1 < l.length → l.getD (i + 1) 0 + 1000 ≤ l.getD i 0 := by
  intro i hi
  rw [List.getD_eq_getElem l 0 hi, List.getD_eq_getElem l 0 (by omega)]
  exact List.pairwise_iff_getElem.mp hchain i (i + 1) (by omega) hi (by omega)

/-- C2: in a sequential execution of the Rate-Limited Translation Client
starting from process start, with arbitrary nonnegative inter-request
entry gaps `ds` (fake clock): every request eventually fires (none fails),
consecutive remote calls are spaced by at least `MIN_REQUEST_INTERVAL`
(1000 ms), at most 45 calls start in any rolling 1-second window, and at
most 50 calls start in any rolling 60-second window. -/
theorem rateLimiter_windows (ds : List Int) (hd : ∀ d ∈ ds, 0 ≤ d) :
    (runCalls initRLState [] ds).length = ds.length ∧
    (∀ i, i + 1 < (runCalls initRLState [] ds).length →
      (runCalls initRLState [] ds).getD (i + 1) 0 + MIN_REQUEST_INTERVAL ≤
        (runCalls initRLState [] ds).getD i 0) ∧
    (∀ a : Int, ((runCalls initRLState [] ds).filter
      (fun t => decide (a ≤ t) && decide (t < a + 1000))).length ≤
        MAX_REQUESTS_PER_SECOND) ∧
    (∀ a : Int, ((runCalls initRLState [] ds).filter
      (fun t => decide (a ≤ t) && decide (t < a + 60000))).length ≤
        MAX_REQUESTS_PER_MINUTE) := by
  obtain ⟨hlen, st2, inv⟩ := runCalls_inv ds initRLState [] hd RLInv_init
  refine ⟨by simpa using hlen, ?_, ?_, ?_⟩
  · intro i hi
    simpa [MIN_REQUEST_INTERVAL] using chain_adjacent inv.chain i hi
  · intro a
    have := chain_window_count 1 1000 inv.chain (chain_adjacent inv.chain) a
    simp only [MAX_REQUESTS_PER_SECOND]
    omega
  · intro a
    exact chain_window_count 50 60000 inv.chain inv.window a

/-- C2 witness: a concrete three-request run (all entering immediately)
stays within the 60-second budget. -/
theorem rateLimiter_windows_witness :
    ((runCalls initRLState [] [0, 0, 0]).filter
      (fun t => decide ((0:Int) ≤ t) && decide (t < 0 + 60000))).length ≤
        MAX_REQUESTS_PER_MINUTE :=
  (rateLimiter_windows [0, 0, 0] (by simp)).2.2.2 0

/-! ## Two-tier translation cache
(TranslationService.ts lines 248-327, 474-495, 557-719;
Database.js lines 182-217)

The memory tier is a `node-cache` instance with `stdTTL: 3600` seconds;
its documented semantics (per-entry expiry `now + stdTTL`, upsert on
`set`, miss on expired entries, `flushAll` empties it) are modelled by
`memGet`/`memSet`.  The persistent tier is the `translations` SQLite
table with a `UNIQUE(original_text, source_lang, target_lang)` key and
`INSERT OR REPLACE` upserts.  The remote backend (`performTranslation`:
rate-limit wait + `retryWithBackoff` around the axios POST) is supplied
as an environment function returning either a response or a thrown
error.  In the program the error reaching the caller is, after the
operation's catch, a plain non-axios `Error` (see `deepLOp`); nothing
verified in this section inspects the error value, so environments are
free to carry the originating backend status in it. -/

/-- `TranslationRequest` from `src/types` (the `context` field is unused
by the service). -/
structure TranslationRequest where
  text : String
  sourceLang : Option String := none
  targetLang : String
deriving Repr, DecidableEq

/-- `TranslationResponse` (the constant `confidence: 1.0` field is
dropped; no verified code path reads it). -/
structure TranslationResponse where
  translatedText : String
  detectedLanguage : Option String := none
deriving Repr, DecidableEq

/-- `CachedTranslation` from `src/types`; timestamps in ms. -/
structure CachedTranslation where
  originalText : String
  translatedText : String
  sourceLang : String
  targetLang : String
  createdAt : Int
  expiresAt : Int
deriving Repr, DecidableEq

/-- JavaScript `s || dflt` on an optional string: the empty string is
falsy. -/
def jsOr (s : Option String) (dflt : String) : String :=
  match s with
  | some v => if v = "" then dflt else v
  | none => dflt

/-- JavaScript truthiness of an optional string field. -/
def optTruthy (s : Option String) : Bool :=
  match s with
  | some v => v ≠ ""
  | none => false

/-- One entry of the `node-cache` memory tier. -/
structure MemEntry where
  key : String
  value : TranslationResponse
  expiresAt : Int
deriving Repr, DecidableEq

/-- `node-cache` stdTTL of 3600 s, in ms. -/
def memTTLms : Int := 3600000

/-- `this.cache.get(key)`: a hit only on a live entry. -/
def memGet (cache : List MemEntry) (key : String) (now : Int) :
    Option TranslationResponse :=
  match cache.find? (fun e => e.key == key) with
  | some e => if now < e.expiresAt then some e.value else none
  | none => none

/-- `this.cache.set(key, value)`: upsert with expiry `now + stdTTL`. -/
def memSet (cache : List MemEntry) (key : String) (v : TranslationResponse)
    (now : Int) : List MemEntry :=
  ⟨key, v, now + memTTLms⟩ :: cache.filter (fun e => e.key != key)

/-- The unique key of the `translations` table. -/
def translationKeyMatches (e : CachedTranslation)
    (text sourceLang targetLang : String) : Bool :=
  e.originalText == text && e.sourceLang == sourceLang && e.targetLang == targetLang

/-- `Database.saveTranslation`: `INSERT OR REPLACE` upsert on the unique
key. -/
def saveTranslation (db : List CachedTranslation) (t : CachedTranslation) :
    List CachedTranslation :=
  t :: db.filter (fun e =>
    !translationKeyMatches e t.originalText t.sourceLang t.targetLang)

/-- `Database.getTranslation` (Database.js lines 197-213): returns a row
only when the key matches and `expires_at > CURRENT_TIMESTAMP` (strict). -/
def getTranslation (db : List CachedTranslation)
    (originalText sourceLang targetLang : String) (now : Int) :
    Option CachedTranslation :=
  db.find? (fun e =>
    translationKeyMatches e originalText sourceLang targetLang &&
    decide (now < e.expiresAt))

/-- `Database.cleanExpiredTranslations` (lines 214-217):
`DELETE FROM translations WHERE expires_at < CURRENT_TIMESTAMP`. -/
def cleanExpiredTranslations (db : List CachedTranslation) (now : Int) :
    List CachedTranslation :=
  db.filter (fun e => !decide (e.expiresAt < now))

/-- The translation client's mutable cache state: the memory tier plus
the optional persistent tier (the service's `database?` constructor
argument). -/
structure TransState where
  cache : List MemEntry
  database : Option (List CachedTranslation)
deriving Repr, DecidableEq

/-- One element of the DeepL batch response `translations` array. -/
structure BatchItem where
  text : String
  detected_source_language : Option String := none
deriving Repr, DecidableEq

/-- Environment of the translation client: configuration plus the remote
backend (the `performTranslation` core and its batch variant), and
whether a persistent write throws (`StoreUnavailable`). -/
structure TransEnv where
  apiKey : String
  ttlDays : Int
  remote : TranslationRequest → Except ApiError TranslationResponse
  remoteBatch : List String → Except ApiError (List BatchItem)
  saveFails : CachedTranslation → Bool

/-- The cache key
`text + "_" + (sourceLang || "auto") + "_" + targetLang`. -/
def cacheKey (r : TranslationRequest) : String :=
  r.text ++ "_" ++ jsOr r.sourceLang "auto" ++ "_" ++ r.targetLang

/-- The response rebuilt from a persistent-store hit (translate lines
296-306): detected language is the stored source language unless it is
the `auto` placeholder. -/
def responseOfDbHit (c : CachedTranslation) : TranslationResponse :=
  { translatedText := c.translatedText
    detectedLanguage := if c.sourceLang ≠ "auto" then some c.sourceLang else none }

/-- The row written by `saveToDatabaseCache` (lines 474-495): expiry is
`now + TRANSLATION_CACHE_TTL_DAYS` days. -/
def mkCachedTranslation (req : TranslationRequest) (resp : TranslationResponse)
    (now ttlDays : Int) : CachedTranslation :=
  { originalText := req.text
    translatedText := resp.translatedText
    sourceLang := jsOr resp.detectedLanguage (jsOr req.sourceLang "auto")
    targetLang := req.targetLang
    createdAt := now
    expiresAt := now + ttlDays * msPerDay }

/-- `saveToDatabaseCache`: no-op without a database; a throwing store
write is caught and logged, leaving the store unchanged. -/
def saveToDatabaseCache (env : TransEnv) (db : Option (List CachedTranslation))
    (now : Int) (req : TranslationRequest) (resp : TranslationResponse) :
    Option (List CachedTranslation) :=
  match db with
  | none => none
  | some d =>
    let ct := mkCachedTranslation req resp now env.ttlDays
    if env.saveFails ct then some d else some (saveTranslation d ct)

/-- `TranslationService.translate` (lines 274-327).  Returns the outcome,
the updated cache state, and the number of remote backend calls issued. -/
def translate (env : TransEnv) (st : TransState) (now : Int)
    (req : TranslationRequest) :
    Except ApiError TranslationResponse × TransState × Nat :=
  if env.apiKey = "" then (.error ⟨false, none⟩, st, 0)
  else
    let key := cacheKey req
    match memGet st.cache key now with
    | some cachedResult => (.ok cachedResult, st, 0)
    | none =>
      let dbHit := match st.database with
        | some d => getTranslation d req.text (jsOr req.sourceLang "auto")
            req.targetLang now
        | none => none
      match dbHit with
      | some dbCached =>
        let response := responseOfDbHit dbCached
        (.ok response, { st with cache := memSet st.cache key response now }, 0)
      | none =>
        match env.remote req with
        | .ok translationResponse =>
          (.ok translationResponse,
           { cache := memSet st.cache key translationResponse now
             database := saveToDatabaseCache env st.database now req
               translationResponse }, 1)
        | .error e => (.error e, st, 1)

/-- `TranslationService.clearCache` (lines 702-710): `flushAll` on the
memory tier, `cleanExpiredTranslations` on the persistent tier. -/
def clearCache (st : TransState) (now : Int) : TransState :=
  { cache := []
    database := st.database.map (fun d => cleanExpiredTranslations d now) }

/-- The per-text cache keys computed by `translateBatch` (lines 569-571). -/
def batchCacheKeys (texts : List String) (targetLang : String)
    (sourceLang : Option String) : List String :=
  texts.map (fun text => text ++ "_" ++ jsOr sourceLang "auto" ++ "_" ++ targetLang)

/-- The response built from one DeepL batch item (lines 624-627). -/
def batchResultOf (it : BatchItem) : TranslationResponse :=
  { translatedText := it.text
    detectedLanguage := it.detected_source_language.map String.toLower }

/-- The `response.data.translations.map(...)` body of `translateBatch`
(lines 619-633): each item with a missing/empty `text` throws (aborting
the map, keeping the memory-cache writes already performed); otherwise
the result is built, cached under `cacheKeys[index]`, and collected.  An
out-of-range index yields the JavaScript key coercion `"undefined"`. -/
def cacheBatchResults (cacheKeys : List String) (now : Int) :
    List BatchItem → Nat → List MemEntry →
    Except ApiError (List TranslationResponse) × List MemEntry
  | [], _, cache => (.ok [], cache)
  | item :: rest, index, cache =>
    if item.text = "" then (.error ⟨false, none⟩, cache)
    else
      let result := batchResultOf item
      let cache2 := memSet cache (cacheKeys.getD index "undefined") result now
      let r := cacheBatchResults cacheKeys now rest (index + 1) cache2
      match r.1 with
      | .ok l => (.ok (result :: l), r.2)
      | .error e => (.error e, r.2)

/-- `TranslationService.translateBatch` (lines 557-659).  Returns the
outcome, the updated state, and the list of remote-call payloads (each
payload is the `text` array sent to the backend).  Note from the source:
only the memory cache is consulted, the remote request body carries
`text: texts` — the full input list — and results are cached in the
memory tier only. -/
def translateBatch (env : TransEnv) (st : TransState) (now : Int)
    (texts : List String) (targetLang : String) (sourceLang : Option String) :
    Except ApiError (List TranslationResponse) × TransState × List (List String) :=
  if env.apiKey = "" then (.error ⟨false, none⟩, st, [])
  else if texts = [] then (.ok [], st, [])
  else
    let cacheKeys := batchCacheKeys texts targetLang sourceLang
    let cachedResults := cacheKeys.map (fun k => memGet st.cache k now)
    if cachedResults.all (fun r => r.isSome) then
      (.ok (cachedResults.map (fun r => r.getD ⟨"", none⟩)), st, [])
    else
      match env.remoteBatch texts with
      | .error e => (.error e, st, [texts])
      | .ok items =>
        if items = [] then (.error ⟨false, none⟩, st, [texts])
        else
          let fan := cacheBatchResults cacheKeys now items 0 st.cache
          (fan.1, { st with cache := fan.2 }, [texts])

/-- A freshly set memory-cache entry is a live hit at the same instant. -/
theorem memGet_memSet_self (cache : List MemEntry) (k : String)
    (v : TranslationResponse) (now : Int) :
    memGet (memSet cache k v now) k now = some v := by
  simp [memGet, memSet, List.find?_cons, memTTLms]

/-- Setting one key leaves lookups of any other key unchanged. -/
theorem memGet_memSet_ne (cache : List MemEntry) {k k2 : String}
    (h : k ≠ k2) (v : TranslationResponse) (t0 now : Int) :
    memGet (memSet cache k2 v t0) k now = memGet cache k now := by
  have hfind : (cache.filter (fun e => e.key != k2)).find?
      (fun e => e.key == k) = cache.find? (fun e => e.key == k) := by
    induction cache with
    | nil => rfl
    | cons e rest ih =>
      by_cases he2 : e.key = k2
      · rw [@List.filter_cons_of_neg MemEntry (fun e => e.key != k2) e rest
            (by simp [he2]),
          @List.find?_cons_of_neg MemEntry (fun e => e.key == k) e rest
            (by simp only [beq_iff_eq, he2]; exact fun hk => h hk.symm)]
        exact ih
      · rw [@List.filter_cons_of_pos MemEntry (fun e => e.key != k2) e rest
            (by simp [he2])]
        by_cases hek : e.key = k
        · rw [@List.find?_cons_of_pos MemEntry (fun e => e.key == k) e
              (rest.filter (fun e => e.key != k2)) (by simp [hek]),
            @List.find?_cons_of_pos MemEntry (fun e => e.key == k) e rest
              (by simp [hek])]
        · rw [@List.find?_cons_of_neg MemEntry (fun e => e.key == k) e
              (rest.filter (fun e => e.key != k2)) (by simp [hek]),
            @List.find?_cons_of_neg MemEntry (fun e => e.key == k) e rest
              (by simp [hek])]
          exact ih
  show memGet (⟨k2, v, t0 + memTTLms⟩ :: cache.filter (fun e => e.key != k2))
      k now = memGet cache k now
  unfold memGet
  rw [@List.find?_cons_of_neg MemEntry (fun e => e.key == k)
      ⟨k2, v, t0 + memTTLms⟩ (cache.filter (fun e => e.key != k2))
      (by simp only [beq_iff_eq]; exact fun hk => h hk.symm),
    hfind]

/-- C4: the single-text `translate` consults the memory cache first, then
the persistent store: a live memory entry is returned as-is with no
remote call and no state change; on a memory miss, a live store row is
returned with no remote call after refreshing the memory cache with it;
and the store lookup itself only returns rows whose expiry is strictly
in the future at call time. -/
theorem translate_cache_tiers (env : TransEnv) (st : TransState) (now : Int)
    (req : TranslationRequest) (hkey : env.apiKey ≠ "") :
    (∀ r, memGet st.cache (cacheKey req) now = some r →
      translate env st now req = (.ok r, st, 0)) ∧
    (∀ d c, memGet st.cache (cacheKey req) now = none →
      st.database = some d →
      getTranslation d req.text (jsOr req.sourceLang "auto") req.targetLang now =
        some c →
      translate env st now req =
        (.ok (responseOfDbHit c),
         { st with cache := memSet st.cache (cacheKey req) (responseOfDbHit c) now },
         0)) ∧
    (∀ (d : List CachedTranslation) (text s tl : String) (c : CachedTranslation),
      getTranslation d text s tl now = some c → now < c.expiresAt) := by
  refine ⟨?_, ?_, ?_⟩
  · intro r hr
    simp [translate, hkey, hr]
  · intro d c hmem hdb hget
    simp [translate, hkey, hmem, hdb, hget]
  · intro d text s tl c hget
    have := List.find?_some hget
    simp only [Bool.and_eq_true, decide_eq_true_eq] at this
    exact this.2

/-- A live memory entry for the C4 witness. -/
def reqEx : TranslationRequest := { text := "hola", targetLang := "en" }

/-- The cached response for the C4 witness. -/
def respEx : TranslationResponse :=
  { translatedText := "hello", detectedLanguage := some "es" }

/-- A backend environment whose remote endpoints always fail; used by
witnesses for cache-hit paths, where the backend must never be reached. -/
def envEx : TransEnv :=
  { apiKey := "k", ttlDays := 7,
    remote := fun _ => .error ⟨false, none⟩,
    remoteBatch := fun _ => .error ⟨false, none⟩,
    saveFails := fun _ => false }

/-- C4 witness: a concrete memory-cache hit is served with no remote
call. -/
theorem translate_cache_tiers_witness :
    translate envEx ⟨[⟨cacheKey reqEx, respEx, 10⟩], none⟩ 0 reqEx =
      (.ok respEx, ⟨[⟨cacheKey reqEx, respEx, 10⟩], none⟩, 0) :=
  (translate_cache_tiers envEx ⟨[⟨cacheKey reqEx, respEx, 10⟩], none⟩ 0 reqEx
    (by decide)).1 respEx (by rfl)

/-- C8: on a full cache miss with a successful remote call, the response
is returned and written through to the memory cache, and — when a store
is configured and the write does not throw — to the persistent store with
expiry `now + ttlDays` days; when the persistent write throws, the
translation is still returned and remains a live memory-cache entry, so
no successful remote translation is lost. -/
theorem translate_writethrough (env : TransEnv) (st : TransState) (now : Int)
    (req : TranslationRequest) (tr : TranslationResponse)
    (hkey : env.apiKey ≠ "")
    (hmem : memGet st.cache (cacheKey req) now = none)
    (hdbmiss : (match st.database with
      | some d => getTranslation d req.text (jsOr req.sourceLang "auto")
          req.targetLang now
      | none => none) = none)
    (hremote : env.remote req = .ok tr) :
    (translate env st now req).1 = .ok tr ∧
    (translate env st now req).2.2 = 1 ∧
    memGet (translate env st now req).2.1.cache (cacheKey req) now = some tr ∧
    (mkCachedTranslation req tr now env.ttlDays).expiresAt =
      now + env.ttlDays * msPerDay ∧
    (∀ d, st.database = some d →
      env.saveFails (mkCachedTranslation req tr now env.ttlDays) = false →
      (translate env st now req).2.1.database =
        some (saveTranslation d (mkCachedTranslation req tr now env.ttlDays))) ∧
    (∀ d, st.database = some d →
      env.saveFails (mkCachedTranslation req tr now env.ttlDays) = true →
      (translate env st now req).2.1.database = some d) := by
  refine ⟨?_, ?_, ?_, rfl, ?_, ?_⟩
  · simp [translate, hkey, hmem, hdbmiss, hremote]
  · simp [translate, hkey, hmem, hdbmiss, hremote]
  · simp only [translate, hkey, if_neg (by simpa using hkey), hmem, hdbmiss,
      hremote]
    exact memGet_memSet_self _ _ _ _
  · intro d hd hsf
    have hmiss2 : getTranslation d req.text (jsOr req.sourceLang "auto")
        req.targetLang now = none := by
      rw [hd] at hdbmiss
      simpa using hdbmiss
    simp [translate, hkey, hmem, hd, hmiss2, hremote, saveToDatabaseCache, hsf]
  · intro d hd hsf
    have hmiss2 : getTranslation d req.text (jsOr req.sourceLang "auto")
        req.targetLang now = none := by
      rw [hd] at hdbmiss
      simpa using hdbmiss
    simp [translate, hkey, hmem, hd, hmiss2, hremote, saveToDatabaseCache, hsf]

/-- Environment for the C8 witness: the backend succeeds, the store write
succeeds. -/
def envOk : TransEnv :=
  { apiKey := "k", ttlDays := 7,
    remote := fun _ => .ok respEx,
    remoteBatch := fun _ => .error ⟨false, none⟩,
    saveFails := fun _ => false }

/-- C8 witness: a concrete full miss is translated remotely and returned. -/
theorem translate_writethrough_witness :
    (translate envOk ⟨[], some []⟩ 0 reqEx).1 = .ok respEx :=
  (translate_writethrough envOk ⟨[], some []⟩ 0 reqEx respEx
    (by decide) (by rfl) (by rfl) (by rfl)).1

/-- A persistent-store row that is still live at time 0, matching
`reqEx`. -/
def liveRow : CachedTranslation :=
  { originalText := "hola", translatedText := "hello", sourceLang := "auto",
    targetLang := "en", createdAt := -100, expiresAt := 1000 }

/-- C6 counterexample: `clearTranslationCache` does NOT purge both tiers.
With a live row in the persistent store, after `clearCache` the store
still holds that row (the claim says it holds no entries), and a request
for the previously-cached translation is served from the store with ZERO
remote calls (the claim says it misses both tiers and needs exactly one
remote call). -/
theorem clearCache_counterexample :
    (clearCache ⟨[⟨cacheKey reqEx, respEx, 50⟩], some [liveRow]⟩ 0).cache = [] ∧
    (clearCache ⟨[⟨cacheKey reqEx, respEx, 50⟩], some [liveRow]⟩ 0).database =
      some [liveRow] ∧
    (translate envEx (clearCache ⟨[⟨cacheKey reqEx, respEx, 50⟩],
      some [liveRow]⟩ 0) 0 reqEx).2.2 = 0 ∧
    (translate envEx (clearCache ⟨[⟨cacheKey reqEx, respEx, 50⟩],
      some [liveRow]⟩ 0) 0 reqEx).1 = .ok (responseOfDbHit liveRow) := by
  refine ⟨rfl, rfl, rfl, rfl⟩

/-- C6 (amended): `clearTranslationCache` empties the memory tier
entirely, but on the persistent tier it only deletes expired rows
(`cleanExpiredTranslations`'s `DELETE … WHERE expires_at <
CURRENT_TIMESTAMP`): every unexpired row survives, and a translation
still live in the store is served from it after the clear with no remote
call. -/
theorem clearCache_spec (env : TransEnv) (st : TransState) (now : Int)
    (req : TranslationRequest) (d : List CachedTranslation)
    (c : CachedTranslation)
    (hkey : env.apiKey ≠ "")
    (hdb : st.database = some d)
    (hget : getTranslation (cleanExpiredTranslations d now) req.text
      (jsOr req.sourceLang "auto") req.targetLang now = some c) :
    (clearCache st now).cache = [] ∧
    (clearCache st now).database = some (cleanExpiredTranslations d now) ∧
    (∀ e ∈ d, ¬(e.expiresAt < now) → e ∈ cleanExpiredTranslations d now) ∧
    (translate env (clearCache st now) now req).2.2 = 0 ∧
    (translate env (clearCache st now) now req).1 = .ok (responseOfDbHit c) := by
  have hstate : clearCache st now = ⟨[], some (cleanExpiredTranslations d now)⟩ := by
    simp [clearCache, hdb]
  have hmem : memGet ([] : List MemEntry) (cacheKey req) now = none := rfl
  refine ⟨by simp [clearCache], by simp [clearCache, hdb], ?_, ?_, ?_⟩
  · intro e he hlive
    simp only [cleanExpiredTranslations, List.mem_filter]
    exact ⟨he, by simpa using hlive⟩
  · rw [hstate]
    simp [translate, memGet, hkey, hget]
  · rw [hstate]
    simp [translate, memGet, hkey, hget]

/-- C6 witness: the amended behaviour on the concrete live-row store. -/
theorem clearCache_spec_witness :
    (translate envEx (clearCache ⟨[], some [liveRow]⟩ 0) 0 reqEx).1 =
      .ok (responseOfDbHit liveRow) :=
  (clearCache_spec envEx ⟨[], some [liveRow]⟩ 0 reqEx [liveRow] liveRow
    (by decide) rfl (by rfl)).2.2.2.2

/-- Distinct in-range positions of a duplicate-free list hold distinct
values. -/
theorem nodup_getD_ne {ks : List String} (hnd : ks.Nodup) {a b : Nat}
    (hab : a ≠ b) (ha : a < ks.length) (hb : b < ks.length) (d : String) :
    ks.getD a d ≠ ks.getD b d := by
  rw [List.getD_eq_getElem ks d ha, List.getD_eq_getElem ks d hb]
  intro hEq
  exact hab ((List.Nodup.getElem_inj_iff hnd).mp hEq)

/-- When every batch item carries a text, the fan-out result is the items
mapped in order. -/
theorem cacheBatchResults_fst (ks : List String) (now : Int) :
    ∀ (items : List BatchItem) (index : Nat) (cache : List MemEntry),
    (∀ it ∈ items, it.text ≠ "") →
    (cacheBatchResults ks now items index cache).1 = .ok (items.map batchResultOf) := by
  intro items
  induction items with
  | nil => intro _ _ _; rfl
  | cons item rest ih =>
    intro index cache hne
    have hitem : item.text ≠ "" := hne item (List.mem_cons_self _ _)
    have hrest : ∀ it ∈ rest, it.text ≠ "" :=
      fun it hit => hne it (List.mem_cons_of_mem _ hit)
    simp only [cacheBatchResults, if_neg hitem]
    rw [ih (index + 1) _ hrest]
    simp

/-- Fan-out caching does not disturb lookups of keys outside the range it
writes. -/
theorem cacheBatchResults_preserve (ks : List String) (now : Int) :
    ∀ (items : List BatchItem) (index : Nat) (cache : List MemEntry)
      (k : String) (now2 : Int),
    (∀ j, j < items.length → ks.getD (index + j) "undefined" ≠ k) →
    memGet (cacheBatchResults ks now items index cache).2 k now2 =
      memGet cache k now2 := by
  intro items
  induction items with
  | nil => intro _ _ _ _ _; rfl
  | cons item rest ih =>
    intro index cache k now2 hk
    by_cases hitem : item.text = ""
    · simp only [cacheBatchResults, if_pos hitem]
    · simp only [cacheBatchResults, if_neg hitem]
      have hk0 : ks.getD index "undefined" ≠ k := by
        have := hk 0 (by simp)
        simpa using this
      have hkrest : ∀ j, j < rest.length → ks.getD (index + 1 + j) "undefined" ≠ k := by
        intro j hj
        have := hk (j + 1) (by simp; omega)
        rw [show index + 1 + j = index + (j + 1) from by omega]
        exact this
      have hrec := ih (index + 1)
        (memSet cache (ks.getD index "undefined") (batchResultOf item) now) k now2 hkrest
      cases hr : (cacheBatchResults ks now rest (index + 1)
          (memSet cache (ks.getD index "undefined") (batchResultOf item) now)).1 <;>
        simp only [hr] <;>
        rw [hrec] <;>
        exact memGet_memSet_ne cache (Ne.symm hk0) (batchResultOf item) now now2

/-- Each batch item ends up cached under its own key. -/
theorem cacheBatchResults_lookup (ks : List String) (now : Int)
    (hnd : ks.Nodup) :
    ∀ (items : List BatchItem) (index : Nat) (cache : List MemEntry),
    (∀ it ∈ items, it.text ≠ "") →
    index + items.length ≤ ks.length →
    ∀ j, j < items.length →
    memGet (cacheBatchResults ks now items index cache).2
        (ks.getD (index + j) "undefined") now =
      some (batchResultOf (items.getD j ⟨"", none⟩)) := by
  intro items
  induction items with
  | nil => intro _ _ _ _ j hj; simp at hj
  | cons item rest ih =>
    intro index cache hne hlen j hj
    have hitem : item.text ≠ "" := hne item (List.mem_cons_self _ _)
    have hrest : ∀ it ∈ rest, it.text ≠ "" :=
      fun it hit => hne it (List.mem_cons_of_mem _ hit)
    simp only [cacheBatchResults, if_neg hitem]
    match j with
    | 0 =>
      have hpres : ∀ j2, j2 < rest.length →
          ks.getD (index + 1 + j2) "undefined" ≠ ks.getD index "undefined" := by
        intro j2 hj2
        apply nodup_getD_ne hnd (by omega) (by simp at hlen; omega) (by simp at hlen; omega)
      have hpr := cacheBatchResults_preserve ks now rest (index + 1)
        (memSet cache (ks.getD index "undefined") (batchResultOf item) now)
        (ks.getD index "undefined") now
        (fun j2 hj2 => hpres j2 hj2)
      have hself := memGet_memSet_self cache (ks.getD index "undefined")
        (batchResultOf item) now
      cases hr : (cacheBatchResults ks now rest (index + 1)
          (memSet cache (ks.getD index "undefined") (batchResultOf item) now)).1 <;>
        simp only [hr, Nat.add_zero, List.getD_cons_zero] <;>
        rw [hpr, hself]
    | (j2 + 1 : Nat) =>
      have hrec := ih (index + 1)
        (memSet cache (ks.getD index "undefined") (batchResultOf item) now)
        hrest (by simp at hlen; omega) j2 (by simp at hj; omega)
      rw [show index + (j2 + 1) = index + 1 + j2 from by omega]
      cases hr : (cacheBatchResults ks now rest (index + 1)
          (memSet cache (ks.getD index "undefined") (batchResultOf item) now)).1 <;>
        simp only [hr, List.getD_cons_succ] <;>
        exact hrec

/-- C5 counterexample: `translateBatch` does NOT apply the single-text
cache contract.  (a) With "a" live in the memory cache and "b" missing,
the single remote call carries BOTH texts — the claim says it covers only
the misses; (b) with a translation for "c" live in the persistent store
(and an empty memory cache), a remote call is issued anyway — the claim
says the store tier is checked and would serve the hit. -/
theorem translateBatch_counterexample :
    (translateBatch
      { apiKey := "k", ttlDays := 7,
        remote := fun _ => .error ⟨false, none⟩,
        remoteBatch := fun ts => .ok (ts.map (fun t => ⟨"T" ++ t, none⟩)),
        saveFails := fun _ => false }
      ⟨[⟨"a_auto_en", ⟨"TA", none⟩, 10⟩], none⟩ 0 ["a", "b"] "en" none).2.2 =
      [["a", "b"]] ∧
    (translateBatch
      { apiKey := "k", ttlDays := 7,
        remote := fun _ => .error ⟨false, none⟩,
        remoteBatch := fun ts => .ok (ts.map (fun t => ⟨"T" ++ t, none⟩)),
        saveFails := fun _ => false }
      ⟨[], some [⟨"c", "TC", "auto", "en", -1, 1000⟩]⟩ 0 ["c"] "en" none).2.2 =
      [["c"]] ∧
    (translateBatch
      { apiKey := "k", ttlDays := 7,
        remote := fun _ => .error ⟨false, none⟩,
        remoteBatch := fun ts => .ok (ts.map (fun t => ⟨"T" ++ t, none⟩)),
        saveFails := fun _ => false }
      ⟨[], some [⟨"c", "TC", "auto", "en", -1, 1000⟩]⟩ 0 ["c"] "en" none).1 =
      .ok [⟨"Tc", none⟩] := by
  refine ⟨rfl, rfl, rfl⟩

/-- C5 (amended): `translateBatch` checks only the memory cache (never
the persistent store).  When every text is a live memory hit it returns
the cached translations with no remote call; otherwise it issues exactly
one remote call whose payload is the FULL input list (cached texts
included), fans the returned items back out in input order, and caches
each returned item in the memory tier under its own key. -/
theorem translateBatch_spec (env : TransEnv) (st : TransState) (now : Int)
    (texts : List String) (targetLang : String) (sourceLang : Option String)
    (hkey : env.apiKey ≠ "") (hne : texts ≠ []) :
    (((batchCacheKeys texts targetLang sourceLang).map
        (fun k => memGet st.cache k now)).all (fun r => r.isSome) = true →
      translateBatch env st now texts targetLang sourceLang =
        (.ok (((batchCacheKeys texts targetLang sourceLang).map
            (fun k => memGet st.cache k now)).map (fun r => r.getD ⟨"", none⟩)),
         st, [])) ∧
    (((batchCacheKeys texts targetLang sourceLang).map
        (fun k => memGet st.cache k now)).all (fun r => r.isSome) = false →
      (∀ e, env.remoteBatch texts = .error e →
        translateBatch env st now texts targetLang sourceLang =
          (.error e, st, [texts])) ∧
      (∀ items, env.remoteBatch texts = .ok items → items ≠ [] →
        (∀ it ∈ items, it.text ≠ "") →
        (translateBatch env st now texts targetLang sourceLang).2.2 = [texts] ∧
        (translateBatch env st now texts targetLang sourceLang).1 =
          .ok (items.map batchResultOf) ∧
        ((batchCacheKeys texts targetLang sourceLang).Nodup →
          items.length ≤ texts.length →
          ∀ j, j < items.length →
          memGet (translateBatch env st now texts targetLang sourceLang).2.1.cache
              ((batchCacheKeys texts targetLang sourceLang).getD j "undefined")
              now =
            some (batchResultOf (items.getD j ⟨"", none⟩))))) := by
  constructor
  · intro hall
    simp [translateBatch, hkey, hne, hall]
  · intro hall
    constructor
    · intro e he
      simp [translateBatch, hkey, hne, hall, he]
    · intro items hitems hne2 htexts
      have hunfold : translateBatch env st now texts targetLang sourceLang =
          ((cacheBatchResults (batchCacheKeys texts targetLang sourceLang) now
              items 0 st.cache).1,
           { st with cache := (cacheBatchResults
              (batchCacheKeys texts targetLang sourceLang) now items 0 st.cache).2 },
           [texts]) := by
        simp [translateBatch, hkey, hne, hall, hitems, hne2]
      refine ⟨by rw [hunfold], ?_, ?_⟩
      · rw [hunfold]
        exact cacheBatchResults_fst _ now items 0 st.cache htexts
      · intro hnd hlen j hj
        rw [hunfold]
        have := cacheBatchResults_lookup
          (batchCacheKeys texts targetLang sourceLang) now hnd items 0 st.cache
          htexts (by simp [batchCacheKeys]; omega) j hj
        simpa using this

/-- An identity batch backend for the C5 witness. -/
def envBatch : TransEnv :=
  { apiKey := "k", ttlDays := 7,
    remote := fun _ => .error ⟨false, none⟩,
    remoteBatch := fun ts => .ok (ts.map (fun t => ⟨t, none⟩)),
    saveFails := fun _ => false }

/-- C5 witness: a concrete one-text miss issues one remote call carrying
the full input list. -/
theorem translateBatch_spec_witness :
    (translateBatch envBatch ⟨[], none⟩ 0 ["x"] "en" none).2.2 = [["x"]] :=
  (((translateBatch_spec envBatch ⟨[], none⟩ 0 ["x"] "en" none (by decide)
    (by simp)).2 (by rfl)).2 [⟨"x", none⟩] (by rfl) (by simp)
    (by intro it hit; simp at hit; rw [hit]; simp)).1

/-! ## Sync orchestrator (ModService.ts)

The orchestrator is embedded over an explicit environment:
`fetch` is `steamService.getPublishedFileDetails` (one call per batch),
`mapItem` is `steamService.mapWorkshopItemToMod` (a pure field mapping
plus character-range language detection; it never populates the
translation fields), `translateContent` is
`translationService.translateModContent` — a total function, because
`translateModContent` resolves on every backend failure (see
`translateModContent` below and the C10 theorem), and `saveModFails`
says whether `database.saveMod` rejects for a given row (deterministic:
the same row fails the same way).  The `mods` table is a list of rows
keyed by `id` with `INSERT OR REPLACE` upserts. -/

/-- The two fields of a Steam Workshop response item that the sync loop
inspects directly; everything else is consumed by `mapItem`. -/
structure SteamWorkshopItem where
  publishedfileid : String
  result : Nat
deriving Repr, DecidableEq

/-- The `mods` table: rows keyed by mod id. -/
abbrev ModsDb := List (String × ModInfo)

/-- `Database.getMod`. -/
def getMod (db : ModsDb) (id : String) : Option ModInfo :=
  (db.find? (fun e => e.1 == id)).map (fun e => e.2)

/-- `Database.saveMod`: `INSERT OR REPLACE` on the primary key. -/
def saveMod (db : ModsDb) (mod : ModInfo) : ModsDb :=
  (mod.id, mod) :: db.filter (fun e => e.1 != mod.id)

/-- `Database.getAllMods` (the SQL `ORDER BY time_updated DESC` changes
only the order of the rows; nothing verified here depends on it). -/
def getAllMods (db : ModsDb) : List ModInfo := db.map (fun e => e.2)

/-- The value of `translationService.translateModContent`. -/
structure TransContentResult where
  translatedTitle : String
  translatedDescription : String
  detectedLanguage : Option String := none
deriving Repr, DecidableEq

/-- Environment of the sync orchestrator. -/
structure SyncEnv where
  fetch : List String → Except String (List SteamWorkshopItem)
  mapItem : SteamWorkshopItem → ModInfo
  translateContent : String → String → TransContentResult
  saveModFails : ModInfo → Bool

/-- Result of the try-block of `ModService.translateMod` (lines 175-224):
whether the body threw (only `database.saveMod` can), the mod object
after the in-place mutations the body performed, the table, and the
number of `translateModContent` calls. -/
structure TranslateModOutcome where
  threw : Bool
  mod : ModInfo
  db : ModsDb
  tmcCalls : Nat
deriving Repr, DecidableEq

/-- The translation core of `translateMod` (lines 190-224): preserve the
originals, translate, apply the results in place, save. -/
def translateModCore (env : SyncEnv) (db : ModsDb) (now : Int)
    (mod : ModInfo) : TranslateModOutcome :=
  let mod1 := { mod with
    originalTitle :=
      if optTruthy mod.originalTitle then mod.originalTitle else some mod.title
    originalDescription :=
      if optTruthy mod.originalDescription then mod.originalDescription
      else some mod.description }
  let translation := env.translateContent mod1.title mod1.description
  let mod2 := { mod1 with
    translatedTitle := some translation.translatedTitle
    translatedDescription := some translation.translatedDescription
    lastTranslated := some now
    language :=
      if optTruthy translation.detectedLanguage then translation.detectedLanguage
      else mod1.language }
  if env.saveModFails mod2 then ⟨true, mod2, db, 1⟩
  else ⟨false, mod2, saveMod db mod2, 1⟩

/-- The try-block of `translateMod` (lines 175-224), including the
early return for a still-valid translation. -/
def translateModRun (env : SyncEnv) (db : ModsDb) (now ttlDays : Int)
    (mod : ModInfo) (forceRetranslate : Bool) : TranslateModOutcome :=
  if !forceRetranslate && optTruthy mod.translatedTitle &&
      optTruthy mod.translatedDescription then
    match mod.lastTranslated with
    | some lt =>
      if lt > now - ttlDays * msPerDay then ⟨false, mod, db, 0⟩
      else translateModCore env db now mod
    | none => translateModCore env db now mod
  else translateModCore env db now mod

/-- `ModService.translateMod` (lines 175-230): the catch (lines 225-229)
swallows any failure and resolves with the mod object — which, being
mutated in place, carries all updates applied before the failing save. -/
def translateMod (env : SyncEnv) (db : ModsDb) (now ttlDays : Int)
    (mod : ModInfo) (forceRetranslate : Bool) : ModInfo × ModsDb × Nat :=
  let r := translateModRun env db now ttlDays mod forceRetranslate
  (r.mod, r.db, r.tmcCalls)

/-- The per-item Steam error string (line 77). -/
def steamErrorMsg (item : SteamWorkshopItem) : String :=
  "Mod " ++ item.publishedfileid ++ ": Steam API error (result: " ++
    toString item.result ++ ")"

/-- The per-item processing error string (line 123; the interpolated
exception text is not modelled). -/
def processErrorMsg (item : SteamWorkshopItem) : String :=
  "Failed to process mod " ++ item.publishedfileid

/-- The per-batch fetch error string (line 129). -/
def batchErrorMsg (i : Nat) (e : String) : String :=
  "Failed to fetch batch starting at index " ++ toString i ++ ": " ++ e

/-- Copying the existing translation onto an unchanged mod
(lines 102-109). -/
def copyTranslations (mod : ModInfo) (existingMod : Option ModInfo) : ModInfo :=
  match existingMod with
  | some ex => { mod with
      translatedTitle := ex.translatedTitle
      translatedDescription := ex.translatedDescription
      lastTranslated := ex.lastTranslated
      originalTitle := ex.originalTitle
      originalDescription := ex.originalDescription }
  | none => mod

/-- The accumulating state of one sync pass: the table, the `SyncResult`
fields, the fetch payloads issued so far, and the number of
`translateModContent` calls. -/
structure SyncAcc where
  db : ModsDb
  synced : List ModInfo
  errors : List String
  fetchPayloads : List (List String)
  tmcCount : Nat
deriving Repr, DecidableEq

/-- The per-item body of `syncModsFromWorkshop` (lines 73-127).  A
`saveMod` rejection in the keep-existing branch is retried once by the
inner catch (line 114) with the same row and fails again, landing in the
per-item catch (lines 122-126); in the no-translation branch it lands
there directly. -/
def processItem (env : SyncEnv) (now ttlDays : Int) (acc : SyncAcc)
    (item : SteamWorkshopItem) : SyncAcc :=
  if item.result ≠ 1 then
    { acc with errors := acc.errors ++ [steamErrorMsg item] }
  else
    let mod := env.mapItem item
    if optTruthy mod.language && !(mod.language == some "en") then
      let existingMod := getMod acc.db mod.id
      if shouldTranslateMod mod existingMod now ttlDays then
        let r := translateMod env acc.db now ttlDays mod false
        { acc with
            db := r.2.1
            tmcCount := acc.tmcCount + r.2.2
            synced := acc.synced ++ [r.1] }
      else
        let mod2 := copyTranslations mod existingMod
        if env.saveModFails mod2 then
          { acc with errors := acc.errors ++ [processErrorMsg item] }
        else
          { acc with db := saveMod acc.db mod2, synced := acc.synced ++ [mod2] }
    else
      if env.saveModFails mod then
        { acc with errors := acc.errors ++ [processErrorMsg item] }
      else
        { acc with db := saveMod acc.db mod, synced := acc.synced ++ [mod] }

/-- The batch loop `for (let i = 0; i < fileIds.length; i += batchSize)`
with `batchSize = 100` (lines 66-68), as (start index, slice) pairs.
The fuel argument only bounds the recursion and is never exhausted when
seeded with the list length. -/
def chunks100Go : Nat → List String → Nat → List (Nat × List String)
  | 0, _, _ => []
  | _, [], _ => []
  | fuel + 1, x :: xs, i =>
    (i, (x :: xs).take 100) :: chunks100Go fuel ((x :: xs).drop 100) (i + 100)

/-- The batches of a sync pass. -/
def chunks100 (fileIds : List String) : List (Nat × List String) :=
  chunks100Go fileIds.length fileIds 0

/-- One iteration of the batch loop (lines 68-132): the fetch is issued
(recorded in `fetchPayloads`), then either every returned item is
processed or the batch error is recorded. -/
def processBatch (env : SyncEnv) (now ttlDays : Int) (acc : SyncAcc)
    (batch : Nat × List String) : SyncAcc :=
  let acc2 := { acc with fetchPayloads := acc.fetchPayloads ++ [batch.2] }
  match env.fetch batch.2 with
  | .ok workshopItems => workshopItems.foldl (processItem env now ttlDays) acc2
  | .error e => { acc2 with errors := acc2.errors ++ [batchErrorMsg batch.1 e] }

/-- The empty accumulator of a pass over table `db`. -/
def initSyncAcc (db : ModsDb) : SyncAcc := ⟨db, [], [], [], 0⟩

/-- `ModService.syncModsFromWorkshop` (lines 55-141). -/
def syncModsFromWorkshop (env : SyncEnv) (db : ModsDb) (now ttlDays : Int)
    (fileIds : List String) : SyncAcc :=
  (chunks100 fileIds).foldl (processBatch env now ttlDays) (initSyncAcc db)

/-- The mod selection of `refreshModTranslations` (lines 352-355). -/
def modsToTranslate (db : ModsDb) (language : Option String) : List ModInfo :=
  match language with
  | some lang => (getAllMods db).filter (fun m => m.language == some lang)
  | none => (getAllMods db).filter
      (fun m => optTruthy m.language && !(m.language == some "en"))

/-- The loop of `refreshModTranslations` (lines 362-370).  The source
wraps `translateMod` in try/catch and counts rejections in `errors`;
`translateMod` resolves on every input (its own catch), so the success
branch is the only reachable one. -/
def refreshLoop (env : SyncEnv) (now ttlDays : Int) :
    List ModInfo → ModsDb → Nat → Nat → (Nat × Nat) × ModsDb
  | [], db, success, errors => ((success, errors), db)
  | m :: rest, db, success, errors =>
    let r := translateMod env db now ttlDays m true
    refreshLoop env now ttlDays rest r.2.1 (success + 1) errors

/-- `ModService.refreshModTranslations` (lines 351-374). -/
def refreshModTranslations (env : SyncEnv) (db : ModsDb) (now ttlDays : Int)
    (language : Option String) : (Nat × Nat) × ModsDb :=
  refreshLoop env now ttlDays (modsToTranslate db language) db 0 0

/-- The string picked for a missing or empty translated field
(`batchResult.translations[i]?.translatedText || fallback`). -/
def textOrDefault (l : List TranslationResponse) (i : Nat) (dflt : String) : String :=
  match l.get? i with
  | some r => if r.translatedText = "" then dflt else r.translatedText
  | none => dflt

/-- `TranslationService.translateModContent` (lines 497-555): one batch
call for title and description; on a batch failure, fall back to two
individual `translate` calls via `Promise.allSettled` (serialized here —
the service serializes remote calls on the shared rate budget anyway),
keeping the original text for any rejected call.  Total: every failure
path resolves. -/
def translateModContent (env : TransEnv) (st : TransState) (now : Int)
    (title description : String) (targetLang : String) :
    TransContentResult × TransState :=
  match translateBatch env st now [title, description] targetLang none with
  | (.ok translations, st2, _) =>
    ({ translatedTitle := textOrDefault translations 0 title
       translatedDescription := textOrDefault translations 1 description
       detectedLanguage := (translations.get? 0).bind
         (fun r => r.detectedLanguage) }, st2)
  | (.error _, st2, _) =>
    let r1 := translate env st2 now ⟨title, none, targetLang⟩
    let r2 := translate env r1.2.1 now ⟨description, none, targetLang⟩
    let translatedTitle := match r1.1 with
      | .ok v => v.translatedText
      | .error _ => title
    let dl1 : Option String := match r1.1 with
      | .ok v => v.detectedLanguage
      | .error _ => none
    let translatedDescription := match r2.1 with
      | .ok v => v.translatedText
      | .error _ => description
    let detectedLanguage := if optTruthy dl1 then dl1
      else match r2.1 with
        | .ok v => v.detectedLanguage
        | .error _ => none
    (⟨translatedTitle, translatedDescription, detectedLanguage⟩, r2.2.1)

/-- The translation core never changes the mod's identity. -/
theorem translateModCore_id (env : SyncEnv) (db : ModsDb) (now : Int)
    (mod : ModInfo) : (translateModCore env db now mod).mod.id = mod.id := by
  simp only [translateModCore]
  split_ifs <;> rfl

/-- `translateMod` resolves with the same catalog item (same id). -/
theorem translateMod_id (env : SyncEnv) (db : ModsDb) (now ttlDays : Int)
    (mod : ModInfo) (force : Bool) :
    (translateMod env db now ttlDays mod force).1.id = mod.id := by
  simp only [translateMod, translateModRun]
  split_ifs with h1
  · cases h : mod.lastTranslated with
    | none => exact translateModCore_id env db now mod
    | some lt =>
      show ((if lt > now - ttlDays * msPerDay then
          (⟨false, mod, db, 0⟩ : TranslateModOutcome)
        else translateModCore env db now mod)).mod.id = mod.id
      by_cases h2 : lt > now - ttlDays * msPerDay
      · rw [if_pos h2]
      · rw [if_neg h2]
        exact translateModCore_id env db now mod
  · exact translateModCore_id env db now mod

/-- Copying existing translations preserves the id. -/
theorem copyTranslations_id (mod : ModInfo) (existingMod : Option ModInfo) :
    (copyTranslations mod existingMod).id = mod.id := by
  cases existingMod <;> rfl

/-- An upsert of one row leaves lookups of other ids unchanged. -/
theorem getMod_saveMod_ne (db : ModsDb) (m : ModInfo) {id : String}
    (h : id ≠ m.id) : getMod (saveMod db m) id = getMod db id := by
  have hfind : (db.filter (fun e => e.1 != m.id)).find? (fun e => e.1 == id) =
      db.find? (fun e => e.1 == id) := by
    induction db with
    | nil => rfl
    | cons e rest ih =>
      by_cases he : e.1 = m.id
      · rw [@List.filter_cons_of_neg (String × ModInfo) (fun e => e.1 != m.id)
            e rest (by simp [he]),
          @List.find?_cons_of_neg (String × ModInfo) (fun e => e.1 == id) e rest
            (by simp only [beq_iff_eq, he]; exact fun hk => h hk.symm)]
        exact ih
      · rw [@List.filter_cons_of_pos (String × ModInfo) (fun e => e.1 != m.id)
            e rest (by simp [he])]
        by_cases hek : e.1 = id
        · rw [@List.find?_cons_of_pos (String × ModInfo) (fun e => e.1 == id) e
              (rest.filter (fun e => e.1 != m.id)) (by simp [hek]),
            @List.find?_cons_of_pos (String × ModInfo) (fun e => e.1 == id) e rest
              (by simp [hek])]
        · rw [@List.find?_cons_of_neg (String × ModInfo) (fun e => e.1 == id) e
              (rest.filter (fun e => e.1 != m.id)) (by simp [hek]),
            @List.find?_cons_of_neg (String × ModInfo) (fun e => e.1 == id) e rest
              (by simp [hek])]
          exact ih
  show ((((m.id, m) :: db.filter (fun e => e.1 != m.id)).find?
      (fun e => e.1 == id)).map (fun e => e.2)) = getMod db id
  rw [@List.find?_cons_of_neg (String × ModInfo) (fun e => e.1 == id) (m.id, m)
      (db.filter (fun e => e.1 != m.id))
      (by simp only [beq_iff_eq]; exact fun hk => h hk.symm),
    hfind]
  rfl

/-- A mod with no translated title takes the full translation path:
exactly one `translateModContent` call, and the table either gains the
updated row (save succeeded) or is unchanged (save threw, caught). -/
theorem translateMod_fresh (env : SyncEnv) (db : ModsDb) (now ttlDays : Int)
    (mod : ModInfo) (h : mod.translatedTitle = none) :
    (translateMod env db now ttlDays mod false).2.2 = 1 ∧
    ((translateMod env db now ttlDays mod false).2.1 = db ∨
     ∃ m2, m2.id = mod.id ∧
       (translateMod env db now ttlDays mod false).2.1 = saveMod db m2) := by
  have hcond : (!false && optTruthy mod.translatedTitle &&
      optTruthy mod.translatedDescription) = false := by
    rw [h]
    rfl
  simp only [translateMod, translateModRun, hcond, Bool.false_eq_true, if_false]
  simp only [translateModCore]
  split_ifs <;>
    refine ⟨rfl, ?_⟩ <;>
    first
      | exact Or.inl rfl
      | exact Or.inr ⟨_, rfl, rfl⟩
      | (refine Or.inr ⟨_, ?_, rfl⟩; rfl)

/-- `processItem` never removes recorded errors. -/
theorem processItem_errors_mono (env : SyncEnv) (now ttlDays : Int)
    (acc : SyncAcc) (item : SteamWorkshopItem) {x : String}
    (hx : x ∈ acc.errors) : x ∈ (processItem env now ttlDays acc item).errors := by
  simp only [processItem]
  split_ifs <;> first | exact hx | exact List.mem_append_left _ hx

/-- `processItem` never removes synced mods. -/
theorem processItem_synced_mono (env : SyncEnv) (now ttlDays : Int)
    (acc : SyncAcc) (item : SteamWorkshopItem) {m : ModInfo}
    (hm : m ∈ acc.synced) : m ∈ (processItem env now ttlDays acc item).synced := by
  simp only [processItem]
  split_ifs <;> first | exact hm | exact List.mem_append_left _ hm

/-- `processItem` never touches the fetch payload log. -/
theorem processItem_payloads (env : SyncEnv) (now ttlDays : Int)
    (acc : SyncAcc) (item : SteamWorkshopItem) :
    (processItem env now ttlDays acc item).fetchPayloads = acc.fetchPayloads := by
  simp only [processItem]
  split_ifs <;> rfl

/-- Error membership survives an item fold. -/
theorem foldItems_errors_mono (env : SyncEnv) (now ttlDays : Int)
    (items : List SteamWorkshopItem) :
    ∀ (acc : SyncAcc) {x : String}, x ∈ acc.errors →
    x ∈ (items.foldl (processItem env now ttlDays) acc).errors := by
  induction items with
  | nil => intro acc x hx; exact hx
  | cons item rest ih =>
    intro acc x hx
    exact ih _ (processItem_errors_mono env now ttlDays acc item hx)

/-- Synced membership survives an item fold. -/
theorem foldItems_synced_mono (env : SyncEnv) (now ttlDays : Int)
    (items : List SteamWorkshopItem) :
    ∀ (acc : SyncAcc) {m : ModInfo}, m ∈ acc.synced →
    m ∈ (items.foldl (processItem env now ttlDays) acc).synced := by
  induction items with
  | nil => intro acc m hm; exact hm
  | cons item rest ih =>
    intro acc m hm
    exact ih _ (processItem_synced_mono env now ttlDays acc item hm)

/-- The payload log survives an item fold. -/
theorem foldItems_payloads (env : SyncEnv) (now ttlDays : Int)
    (items : List SteamWorkshopItem) :
    ∀ (acc : SyncAcc),
    (items.foldl (processItem env now ttlDays) acc).fetchPayloads =
      acc.fetchPayloads := by
  induction items with
  | nil => intro acc; rfl
  | cons item rest ih =>
    intro acc
    rw [List.foldl_cons, ih, processItem_payloads]

/-- One batch records exactly its own payload. -/
theorem processBatch_payloads (env : SyncEnv) (now ttlDays : Int)
    (acc : SyncAcc) (b : Nat × List String) :
    (processBatch env now ttlDays acc b).fetchPayloads =
      acc.fetchPayloads ++ [b.2] := by
  simp only [processBatch]
  cases h : env.fetch b.2 with
  | ok items => rw [foldItems_payloads]
  | error e => rfl

/-- Error membership survives a batch step. -/
theorem processBatch_errors_mono (env : SyncEnv) (now ttlDays : Int)
    (acc : SyncAcc) (b : Nat × List String) {x : String}
    (hx : x ∈ acc.errors) : x ∈ (processBatch env now ttlDays acc b).errors := by
  simp only [processBatch]
  cases h : env.fetch b.2 with
  | ok items => exact foldItems_errors_mono env now ttlDays items _ hx
  | error e => exact List.mem_append_left _ hx

/-- Synced membership survives a batch step. -/
theorem processBatch_synced_mono (env : SyncEnv) (now ttlDays : Int)
    (acc : SyncAcc) (b : Nat × List String) {m : ModInfo}
    (hm : m ∈ acc.synced) : m ∈ (processBatch env now ttlDays acc b).synced := by
  simp only [processBatch]
  cases h : env.fetch b.2 with
  | ok items => exact foldItems_synced_mono env now ttlDays items _ hm
  | error e => exact hm

/-- Error membership survives the batch fold. -/
theorem foldBatches_errors_mono (env : SyncEnv) (now ttlDays : Int)
    (bs : List (Nat × List String)) :
    ∀ (acc : SyncAcc) {x : String}, x ∈ acc.errors →
    x ∈ (bs.foldl (processBatch env now ttlDays) acc).errors := by
  induction bs with
  | nil => intro acc x hx; exact hx
  | cons b rest ih =>
    intro acc x hx
    exact ih _ (processBatch_errors_mono env now ttlDays acc b hx)

/-- Synced membership survives the batch fold. -/
theorem foldBatches_synced_mono (env : SyncEnv) (now ttlDays : Int)
    (bs : List (Nat × List String)) :
    ∀ (acc : SyncAcc) {m : ModInfo}, m ∈ acc.synced →
    m ∈ (bs.foldl (processBatch env now ttlDays) acc).synced := by
  induction bs with
  | nil => intro acc m hm; exact hm
  | cons b rest ih =>
    intro acc m hm
    exact ih _ (processBatch_synced_mono env now ttlDays acc b hm)

/-- The batch fold records every payload in order, failures included. -/
theorem foldBatches_payloads (env : SyncEnv) (now ttlDays : Int)
    (bs : List (Nat × List String)) :
    ∀ (acc : SyncAcc),
    (bs.foldl (processBatch env now ttlDays) acc).fetchPayloads =
      acc.fetchPayloads ++ bs.map (fun b => b.2) := by
  induction bs with
  | nil => intro acc; simp
  | cons b rest ih =>
    intro acc
    rw [List.foldl_cons, ih, processBatch_payloads]
    simp

/-- A failing batch records its error against its start index. -/
theorem foldBatches_error_recorded (env : SyncEnv) (now ttlDays : Int)
    (bs : List (Nat × List String)) :
    ∀ (acc : SyncAcc) (i : Nat) (b : List String) (e : String),
    (i, b) ∈ bs → env.fetch b = .error e →
    batchErrorMsg i e ∈ (bs.foldl (processBatch env now ttlDays) acc).errors := by
  induction bs with
  | nil => intro acc i b e hmem _; simp at hmem
  | cons b0 rest ih =>
    intro acc i b e hmem hfetch
    rw [List.foldl_cons]
    rcases List.mem_cons.mp hmem with heq | hmem2
    · apply foldBatches_errors_mono
      subst heq
      simp only [processBatch, hfetch]
      exact List.mem_append_right _ (List.mem_singleton.mpr rfl)
    · exact ih _ i b e hmem2 hfetch

/-- With a healthy store, every result-1 item of a fetched batch lands in
the synced output (identified by its mapped id). -/
theorem foldItems_success (env : SyncEnv) (now ttlDays : Int)
    (hSave : ∀ m, env.saveModFails m = false)
    (items : List SteamWorkshopItem) :
    ∀ (acc : SyncAcc) (item : SteamWorkshopItem), item ∈ items →
    item.result = 1 →
    ∃ m ∈ (items.foldl (processItem env now ttlDays) acc).synced,
      m.id = (env.mapItem item).id := by
  induction items with
  | nil => intro acc item hmem _; simp at hmem
  | cons it0 rest ih =>
    intro acc item hmem hres
    rw [List.foldl_cons]
    rcases List.mem_cons.mp hmem with heq | hmem2
    · subst heq
      have hpushed : ∃ m ∈ (processItem env now ttlDays acc item).synced,
          m.id = (env.mapItem item).id := by
        simp only [processItem, if_neg (by omega : ¬item.result ≠ 1)]
        split_ifs with hlang hneed hf1 hf2
        · exact ⟨_, List.mem_append_right _ (List.mem_singleton.mpr rfl),
            translateMod_id env acc.db now ttlDays (env.mapItem item) false⟩
        · rw [hSave _] at hf1
          exact absurd hf1 (by simp)
        · exact ⟨_, List.mem_append_right _ (List.mem_singleton.mpr rfl),
            copyTranslations_id (env.mapItem item) _⟩
        · rw [hSave _] at hf2
          exact absurd hf2 (by simp)
        · exact ⟨_, List.mem_append_right _ (List.mem_singleton.mpr rfl), rfl⟩
      obtain ⟨m, hm, hid⟩ := hpushed
      exact ⟨m, foldItems_synced_mono env now ttlDays rest _ hm, hid⟩
    · exact ih _ item hmem2 hres

/-- Batch-fold version of `foldItems_success`. -/
theorem foldBatches_success (env : SyncEnv) (now ttlDays : Int)
    (hSave : ∀ m, env.saveModFails m = false)
    (bs : List (Nat × List String)) :
    ∀ (acc : SyncAcc) (i : Nat) (b : List String)
      (items : List SteamWorkshopItem) (item : SteamWorkshopItem),
    (i, b) ∈ bs → env.fetch b = .ok items → item ∈ items → item.result = 1 →
    ∃ m ∈ (bs.foldl (processBatch env now ttlDays) acc).synced,
      m.id = (env.mapItem item).id := by
  induction bs with
  | nil => intro acc i b items item hmem _ _ _; simp at hmem
  | cons b0 rest ih =>
    intro acc i b items item hmem hfetch hit hres
    rw [List.foldl_cons]
    rcases List.mem_cons.mp hmem with heq | hmem2
    · subst heq
      have hstep : ∃ m ∈ (processBatch env now ttlDays acc (i, b)).synced,
          m.id = (env.mapItem item).id := by
        simp only [processBatch, hfetch]
        exact foldItems_success env now ttlDays hSave items _ item hit hres
      obtain ⟨m, hm, hid⟩ := hstep
      exact ⟨m, foldBatches_synced_mono env now ttlDays rest _ hm, hid⟩
    · exact ih _ i b items item hmem2 hfetch hit hres

/-- Unfolding the batch loop on a nonempty list. -/
theorem chunks100Go_succ (f : Nat) (x : String) (xs : List String) (i : Nat) :
    chunks100Go (f + 1) (x :: xs) i =
      (i, (x :: xs).take 100) :: chunks100Go f ((x :: xs).drop 100) (i + 100) := rfl

/-- The batch loop stops on the empty list. -/
theorem chunks100Go_nil (f i : Nat) : chunks100Go f [] i = [] := by
  cases f <;> rfl

/-- Every batch slice carries at most 100 identifiers. -/
theorem chunks100Go_le100 :
    ∀ (fuel : Nat) (l : List String) (i : Nat) (b : Nat × List String),
    b ∈ chunks100Go fuel l i → b.2.length ≤ 100 := by
  intro fuel
  induction fuel with
  | zero => intro l i b hb; simp [chunks100Go] at hb
  | succ f ih =>
    intro l i b hb
    cases l with
    | nil => simp [chunks100Go_nil] at hb
    | cons x xs =>
      rw [chunks100Go_succ] at hb
      rcases List.mem_cons.mp hb with heq | hb2
      · subst heq
        simp [List.length_take]
      · exact ih _ _ b hb2

/-- The batch slices concatenate back to the identifier list. -/
theorem chunks100Go_join :
    ∀ (fuel : Nat) (l : List String) (i : Nat), l.length ≤ fuel →
    ((chunks100Go fuel l i).map (fun b => b.2)).flatten = l := by
  intro fuel
  induction fuel with
  | zero =>
    intro l i hl
    have : l = [] := List.eq_nil_of_length_eq_zero (by omega)
    subst this
    rfl
  | succ f ih =>
    intro l i hl
    cases l with
    | nil => simp [chunks100Go_nil]
    | cons x xs =>
      rw [chunks100Go_succ]
      simp only [List.map_cons, List.flatten_cons]
      rw [ih ((x :: xs).drop 100) (i + 100)
        (by simp only [List.length_drop, List.length_cons] at hl ⊢; omega)]
      exact List.take_append_drop 100 (x :: xs)

/-- C7 (batching): every sync pass issues its remote fetches exactly as
the consecutive ≤ 100-identifier chunks of the input (even when some
fetches fail); 150 identifiers produce exactly 2 fetch payloads of 100
and 50; a failing batch records an error naming its start index (from
which its identifier slice is determined) while every other batch is
still fetched; and with a healthy store every result-1 item of every
successfully fetched batch appears in the synced output. -/
theorem syncModsFromWorkshop_batching (env : SyncEnv) (db : ModsDb)
    (now ttlDays : Int) (fileIds : List String) :
    (syncModsFromWorkshop env db now ttlDays fileIds).fetchPayloads =
      (chunks100 fileIds).map (fun b => b.2) ∧
    (∀ b ∈ chunks100 fileIds, b.2.length ≤ 100) ∧
    (((chunks100 fileIds).map (fun b => b.2)).flatten = fileIds) ∧
    (fileIds.length = 150 →
      (chunks100 fileIds).map (fun b => b.2.length) = [100, 50]) ∧
    (∀ (i : Nat) (b : List String) (e : String), (i, b) ∈ chunks100 fileIds →
      env.fetch b = .error e →
      batchErrorMsg i e ∈ (syncModsFromWorkshop env db now ttlDays fileIds).errors) ∧
    ((∀ m, env.saveModFails m = false) →
      ∀ (i : Nat) (b : List String) (items : List SteamWorkshopItem)
        (item : SteamWorkshopItem),
      (i, b) ∈ chunks100 fileIds → env.fetch b = .ok items → item ∈ items →
      item.result = 1 →
      ∃ m ∈ (syncModsFromWorkshop env db now ttlDays fileIds).synced,
        m.id = (env.mapItem item).id) := by
  refine ⟨?_, ?_, ?_, ?_, ?_, ?_⟩
  · rw [syncModsFromWorkshop, foldBatches_payloads]
    rfl
  · intro b hb
    exact chunks100Go_le100 fileIds.length fileIds 0 b hb
  · exact chunks100Go_join fileIds.length fileIds 0 le_rfl
  · intro h150
    cases hshape : fileIds with
    | nil => rw [hshape] at h150; simp at h150
    | cons x xs =>
      rw [hshape] at h150
      subst hshape
      rw [chunks100, h150]
      rw [show (150 : Nat) = 149 + 1 from rfl, chunks100Go_succ]
      have hdrop : ((x :: xs).drop 100).length = 50 := by
        simp only [List.length_drop]
        rw [h150]
      cases hd : (x :: xs).drop 100 with
      | nil => rw [hd] at hdrop; simp at hdrop
      | cons y ys =>
        rw [show (149 : Nat) = 148 + 1 from rfl, chunks100Go_succ]
        have hys : (y :: ys).length = 50 := by rw [← hd]; exact hdrop
        have hd2 : (y :: ys).drop 100 = [] :=
          List.drop_eq_nil_of_le (by omega)
        rw [hd2, chunks100Go_nil]
        simp only [List.map_cons, List.map_nil, List.length_take]
        rw [h150, hys]
        norm_num
  · intro i b e hmem hfetch
    exact foldBatches_error_recorded env now ttlDays (chunks100 fileIds) _ i b e
      hmem hfetch
  · intro hSave i b items item hmem hfetch hit hres
    exact foldBatches_success env now ttlDays hSave (chunks100 fileIds) _ i b
      items item hmem hfetch hit hres

/-- An environment whose remote catalog fetch always fails; for the C7
witness. -/
def envFetchFail : SyncEnv :=
  { fetch := fun _ => .error "boom"
    mapItem := fun it => { id := it.publishedfileid, title := "", description := "" }
    translateContent := fun t d => ⟨t, d, none⟩
    saveModFails := fun _ => false }

/-- C7 witness: the single failing batch of a one-identifier sync records
its error against start index 0. -/
theorem syncModsFromWorkshop_batching_witness :
    batchErrorMsg 0 "boom" ∈
      (syncModsFromWorkshop envFetchFail [] 0 7 ["1"]).errors :=
  (syncModsFromWorkshop_batching envFetchFail [] 0 7 ["1"]).2.2.2.2.1 0 ["1"]
    "boom" (by rw [show chunks100 ["1"] = [(0, ["1"])] from rfl]; simp) rfl

/-- Every fresh, foreign-language, result-1 item of a pass gets a
translation attempt, regardless of how earlier attempts fared: the
attempt counter grows by one per item. -/
theorem foldItems_attempts (env : SyncEnv) (now ttlDays : Int)
    (items : List SteamWorkshopItem) :
    ∀ (acc : SyncAcc),
    (∀ item ∈ items, item.result = 1) →
    (∀ item ∈ items, optTruthy (env.mapItem item).language = true ∧
      (env.mapItem item).language ≠ some "en") →
    (∀ item ∈ items, (env.mapItem item).translatedTitle = none) →
    (∀ item ∈ items, getMod acc.db (env.mapItem item).id = none) →
    ((items.map (fun it => (env.mapItem it).id)).Nodup) →
    (items.foldl (processItem env now ttlDays) acc).tmcCount =
      acc.tmcCount + items.length := by
  induction items with
  | nil => intro acc _ _ _ _ _; simp
  | cons item rest ih =>
    intro acc hres hlang hfreshT hfreshDb hnd
    have hres0 := hres item (List.mem_cons_self _ _)
    have hlang0 := hlang item (List.mem_cons_self _ _)
    have hT0 := hfreshT item (List.mem_cons_self _ _)
    have hdb0 := hfreshDb item (List.mem_cons_self _ _)
    rw [List.foldl_cons]
    have hlangb : (optTruthy (env.mapItem item).language &&
        !((env.mapItem item).language == some "en")) = true := by
      simp [hlang0.1, hlang0.2]
    have hneed : shouldTranslateMod (env.mapItem item)
        (getMod acc.db (env.mapItem item).id) now ttlDays = true := by
      rw [hdb0]
      rfl
    have hfresh := translateMod_fresh env acc.db now ttlDays (env.mapItem item) hT0
    have hstep : processItem env now ttlDays acc item =
        { acc with
            db := (translateMod env acc.db now ttlDays (env.mapItem item) false).2.1
            tmcCount := acc.tmcCount +
              (translateMod env acc.db now ttlDays (env.mapItem item) false).2.2
            synced := acc.synced ++
              [(translateMod env acc.db now ttlDays (env.mapItem item) false).1] } := by
      simp only [processItem, if_neg (by omega : ¬item.result ≠ 1), hlangb,
        if_pos rfl, hneed]
      simp
    rw [hstep]
    have hacc2db : ∀ id2, id2 ≠ (env.mapItem item).id →
        getMod (translateMod env acc.db now ttlDays (env.mapItem item) false).2.1
          id2 = getMod acc.db id2 := by
      intro id2 hid2
      rcases hfresh.2 with hsame | ⟨m2, hm2id, hm2⟩
      · rw [hsame]
      · rw [hm2]
        exact getMod_saveMod_ne acc.db m2 (by rw [hm2id]; exact hid2)
    have hndrest : ((rest.map (fun it => (env.mapItem it).id)).Nodup) := by
      simp only [List.map_cons, List.nodup_cons] at hnd
      exact hnd.2
    have hheadne : ∀ it2 ∈ rest, (env.mapItem it2).id ≠ (env.mapItem item).id := by
      intro it2 hit2 hEq
      simp only [List.map_cons, List.nodup_cons] at hnd
      exact hnd.1 (hEq ▸ List.mem_map_of_mem (fun it => (env.mapItem it).id) hit2)
    have := ih { acc with
        db := (translateMod env acc.db now ttlDays (env.mapItem item) false).2.1
        tmcCount := acc.tmcCount +
          (translateMod env acc.db now ttlDays (env.mapItem item) false).2.2
        synced := acc.synced ++
          [(translateMod env acc.db now ttlDays (env.mapItem item) false).1] }
      (fun it2 hit2 => hres it2 (List.mem_cons_of_mem _ hit2))
      (fun it2 hit2 => hlang it2 (List.mem_cons_of_mem _ hit2))
      (fun it2 hit2 => hfreshT it2 (List.mem_cons_of_mem _ hit2))
      (fun it2 hit2 => by
        rw [hacc2db (env.mapItem it2).id (hheadne it2 hit2)]
        exact hfreshDb it2 (List.mem_cons_of_mem _ hit2))
      hndrest
    rw [this]
    simp only [hfresh.1]
    simp
    omega

/-- C9 (amended): a hard-quota response (HTTP 456) is not a throttling
signal, so the client surfaces it immediately with no retry and no
backoff; but the orchestrator implements no pass-wide stop — every
remaining eligible item of the pass still gets its own translation
attempt. -/
theorem quota456_immediate_no_stop :
    (∀ {α : Type} (op : Nat → Except ApiError α) (e : ApiError),
      op 0 = .error e → e.status = some 456 →
      retryWithBackoff op = (.error e, 1, [])) ∧
    (∀ (env : SyncEnv) (now ttlDays : Int) (items : List SteamWorkshopItem)
      (acc : SyncAcc),
      (∀ item ∈ items, item.result = 1) →
      (∀ item ∈ items, optTruthy (env.mapItem item).language = true ∧
        (env.mapItem item).language ≠ some "en") →
      (∀ item ∈ items, (env.mapItem item).translatedTitle = none) →
      (∀ item ∈ items, getMod acc.db (env.mapItem item).id = none) →
      ((items.map (fun it => (env.mapItem it).id)).Nodup) →
      (items.foldl (processItem env now ttlDays) acc).tmcCount =
        acc.tmcCount + items.length) := by
  constructor
  · intro α op e hop h456
    have hrl : isRateLimitError e = false := by
      simp [isRateLimitError, h456]
    simp [retryWithBackoff, retryGo, hop, hrl]
  · intro env now ttlDays items acc h1 h2 h3 h4 h5
    exact foldItems_attempts env now ttlDays items acc h1 h2 h3 h4 h5

/-- The quota-exhausted backend: every remote call fails with HTTP 456. -/
def env456 : TransEnv :=
  { apiKey := "k", ttlDays := 7,
    remote := fun _ => .error ⟨true, some 456⟩,
    remoteBatch := fun _ => .error ⟨true, some 456⟩,
    saveFails := fun _ => false }

/-- A sync environment over a quota-exhausted backend: the per-item
translation resolves with the original texts, exactly as
`translateModContent` does against `env456`. -/
def envQuotaSync : SyncEnv :=
  { fetch := fun ids => .ok (ids.map (fun id => ⟨id, 1⟩))
    mapItem := fun it =>
      { id := it.publishedfileid, title := "你好", description := "描述",
        language := some "zh" }
    translateContent := fun t d => ⟨t, d, none⟩
    saveModFails := fun _ => false }

/-- C9 counterexample: with every backend call answering HTTP 456,
(1) the per-item translation resolves with the untranslated texts (the
456 having been surfaced immediately inside the client), and (2) a sync
pass over TWO such items still attempts translation for BOTH — the
orchestrator does not stop after the first quota failure, contradicting
the claim that no further translations are attempted. -/
theorem quota456_counterexample :
    (translateModContent env456 ⟨[], none⟩ 0 "你好" "描述" "en").1 =
      ⟨"你好", "描述", none⟩ ∧
    (syncModsFromWorkshop envQuotaSync [] 0 7 ["1", "2"]).tmcCount = 2 := by
  refine ⟨rfl, rfl⟩

/-- C9 witness: the no-retry half of the amended claim at a concrete
456-only backend. -/
theorem quota456_immediate_no_stop_witness :
    retryWithBackoff (fun (_ : Nat) =>
      (.error ⟨true, some 456⟩ : Except ApiError String)) =
      (.error ⟨true, some 456⟩, 1, []) :=
  quota456_immediate_no_stop.1
    (fun _ => (.error ⟨true, some 456⟩ : Except ApiError String))
    ⟨true, some 456⟩ rfl rfl

/-- The refresh loop increments `success` once per mod and never touches
`errors`. -/
theorem refreshLoop_counts (env : SyncEnv) (now ttlDays : Int) :
    ∀ (mods : List ModInfo) (db : ModsDb) (success errors : Nat),
    (refreshLoop env now ttlDays mods db success errors).1 =
      (success + mods.length, errors) := by
  intro mods
  induction mods with
  | nil => intro db success errors; simp [refreshLoop]
  | cons m rest ih =>
    intro db success errors
    rw [refreshLoop, ih]
    simp
    omega

/-- C10 (amended): `translateMod` never rejects — it always resolves with
the same catalog item (the mod object, possibly carrying a fresh but
unpersisted translation when only the database save failed); when the
client has no credentials the per-item translation resolves with the
original texts rather than raising; and consequently
`refreshModTranslations` always resolves with an errors count of 0 and a
success count equal to the number of selected mods. -/
theorem translateMod_never_rejects (env : SyncEnv) (db : ModsDb)
    (now ttlDays : Int) (language : Option String) :
    (∀ mod force, (translateMod env db now ttlDays mod force).1.id = mod.id) ∧
    (∀ (tenv : TransEnv) (st : TransState) (now2 : Int) (t d tl : String),
      tenv.apiKey = "" →
      (translateModContent tenv st now2 t d tl).1 = ⟨t, d, none⟩) ∧
    (refreshModTranslations env db now ttlDays language).1.2 = 0 ∧
    (refreshModTranslations env db now ttlDays language).1.1 =
      (modsToTranslate db language).length := by
  refine ⟨?_, ?_, ?_, ?_⟩
  · intro mod force
    exact translateMod_id env db now ttlDays mod force
  · intro tenv st now2 t d tl hkey
    simp [translateModContent, translateBatch, translate, hkey]
  · rw [refreshModTranslations, refreshLoop_counts]
  · rw [refreshModTranslations, refreshLoop_counts]
    simp

/-- C10 witness: the credential-less client resolves with the original
texts (no exception), via the amended theorem at a concrete input. -/
theorem translateMod_never_rejects_witness :
    (translateModContent
      { apiKey := "", ttlDays := 7, remote := fun _ => .error ⟨false, none⟩,
        remoteBatch := fun _ => .error ⟨false, none⟩,
        saveFails := fun _ => false }
      ⟨[], none⟩ 0 "a" "b" "en").1 = ⟨"a", "b", none⟩ :=
  (translateMod_never_rejects envQuotaSync [] 0 7 none).2.1
    { apiKey := "", ttlDays := 7, remote := fun _ => .error ⟨false, none⟩,
      remoteBatch := fun _ => .error ⟨false, none⟩,
      saveFails := fun _ => false }
    ⟨[], none⟩ 0 "a" "b" "en" rfl

/-- A sync environment whose mod saves always fail and whose translation
oracle returns fresh text; for the C10 counterexample. -/
def envSaveFail : SyncEnv :=
  { fetch := fun _ => .ok []
    mapItem := fun it => { id := it.publishedfileid, title := "", description := "" }
    translateContent := fun _ _ => ⟨"NEW", "NEWD", none⟩
    saveModFails := fun _ => true }

/-- A mod carrying a prior translation; for the C10 counterexample. -/
def modPrior : ModInfo :=
  { id := "1", title := "T", description := "D",
    translatedTitle := some "OLD", translatedDescription := some "OLDD",
    lastTranslated := some 0, language := some "zh" }

/-- C10 counterexample: when the backend succeeds but the database save
fails, `translateMod` resolves (no rejection) with the FRESHLY translated
mod — neither untranslated nor carrying its prior translation, as the
claim asserts — while the table stays unchanged. -/
theorem translateMod_counterexample :
    (translateMod envSaveFail [] 0 7 modPrior true).1.translatedTitle =
      some "NEW" ∧
    (translateMod envSaveFail [] 0 7 modPrior true).2.1 = [] ∧
    some "NEW" ≠ modPrior.translatedTitle ∧
    (some "NEW" : Option String) ≠ none := by
  refine ⟨rfl, rfl, by decide, by decide⟩

end Duckov
